import Mathlib

/-!
# Verification of the solar-podcast-gen generation pipeline and audio combiner

Shallow embedding of the repository's core logic:

* `combineWavBuffers` / `estimateAudioDuration` (combine-audio route),
* `streamChatCompletion`'s `<think>`-span filtering (`src/lib/llm.ts`),
* `cleanResponseForJSON`, `fixCommonJSONIssues`, `validateOutlineContent`,
  `parseJSONFromResponse` (`src/lib/llm-utils.ts`),
* the search client and `enrichWithWebSearch`, `generatePodcastScript`,
  `createFinalScript` (`src/lib/podcast-generator.ts`, `src/lib/search.ts`),
* the generate-podcast request handler (`src/app/api/generations/route.ts`).

JavaScript strings are modelled as `List Char`, byte buffers as `List Nat`
(each entry a byte value), JavaScript numbers as `Nat`/`Int` with explicit
rounding where the source rounds.
-/

/-! ## Byte-buffer primitives (Node `Buffer` reads/writes, little endian) -/

/-- `buffer.readUInt32LE(off)`: little-endian 32-bit read at byte offset
`off`.  Out-of-range bytes read as 0 (all uses are guarded in range). -/
def readUInt32LE (b : List Nat) (off : Nat) : Nat :=
  b.getD off 0 + 256 * b.getD (off + 1) 0 + 65536 * b.getD (off + 2) 0 +
    16777216 * b.getD (off + 3) 0

/-- `buffer.readUInt16LE(off)`: little-endian 16-bit read at byte offset `off`. -/
def readUInt16LE (b : List Nat) (off : Nat) : Nat :=
  b.getD off 0 + 256 * b.getD (off + 1) 0

/-- The four bytes stored by `buffer.writeUInt32LE(v, _)` (for in-range `v`). -/
def uint32leBytes (v : Nat) : List Nat :=
  [v % 256, v / 256 % 256, v / 65536 % 256, v / 16777216 % 256]

/-- The two bytes stored by `buffer.writeUInt16LE(v, _)` (for in-range `v`). -/
def uint16leBytes (v : Nat) : List Nat :=
  [v % 256, v / 256 % 256]

/-! ## The audio combiner (combine-audio route) -/

/-- Declared `data`-chunk size of a WAV buffer: `buffer.readUInt32LE(40)`. -/
def wavDataSize (b : List Nat) : Nat := readUInt32LE b 40

/-- The audio payload the combiner extracts from one input WAV:
`buffer.subarray(44, 44 + dataSize)` (Node `subarray` clamps to the
buffer's length, as `take` does). -/
def wavPayload (b : List Nat) : List Nat := (b.drop 44).take (wavDataSize b)

/-- `combineWavBuffers` from the combine-audio route: reads the format
fields of the first buffer, extracts each input's declared payload,
concatenates the payloads and prefixes one fresh 44-byte canonical header.
Returns `none` exactly when the input list is empty (the source throws
"No audio buffers to combine"). -/
def combineWavBuffers (buffers : List (List Nat)) : Option (List Nat) :=
  match buffers with
  | [] => none
  | firstBuffer :: _ =>
    let sampleRate := readUInt32LE firstBuffer 24
    let bitsPerSample := readUInt16LE firstBuffer 34
    let numChannels := readUInt16LE firstBuffer 22
    let bytesPerSample := bitsPerSample / 8
    let blockAlign := numChannels * bytesPerSample
    let audioDataChunks := buffers.map wavPayload
    let totalDataSize := (audioDataChunks.map List.length).sum
    let totalFileSize := 44 + totalDataSize - 8
    some ([82, 73, 70, 70] ++ uint32leBytes totalFileSize ++ [87, 65, 86, 69]
      ++ [102, 109, 116, 32] ++ uint32leBytes 16 ++ uint16leBytes 1
      ++ uint16leBytes numChannels ++ uint32leBytes sampleRate
      ++ uint32leBytes (sampleRate * blockAlign) ++ uint16leBytes blockAlign
      ++ uint16leBytes bitsPerSample
      ++ [100, 97, 116, 97] ++ uint32leBytes totalDataSize
      ++ audioDataChunks.flatten)

/-- `estimateAudioDuration` from the combine-audio route:
`Math.round((buffer.length - 44) / 88200)`, the divisor hard-coded for
mono 16-bit 44.1 kHz audio.  `Math.round x = ⌊x + 1/2⌋`, so the result is
`⌊(2·dataSize + 88200) / (2·88200)⌋` over the integers. -/
def estimateAudioDuration (buffer : List Nat) : Int :=
  let dataSize : Int := (buffer.length : Int) - 44
  Int.fdiv (2 * dataSize + 88200) (2 * 88200)

/-- Modelled from the spec: the duration formula the spec attributes to the
combiner — payload bytes divided by `sampleRate * bytesPerSample * channels`
*as read from the buffer's header*, rounded to the nearest second.  This is
the claimed behaviour, written for comparison with `estimateAudioDuration`. -/
def specHeaderDuration (buffer : List Nat) : Int :=
  let sampleRate := readUInt32LE buffer 24
  let numChannels := readUInt16LE buffer 22
  let bytesPerSample := readUInt16LE buffer 34 / 8
  let denom : Int := (sampleRate * bytesPerSample * numChannels : Nat)
  let payload : Int := (buffer.length : Int) - 44
  Int.fdiv (2 * payload + denom) (2 * denom)

section WavLemmas

/-- Reading a 32-bit little-endian field back from where it was written. -/
theorem readUInt32LE_append (pre post : List Nat) (v : Nat)
    (hv : v < 4294967296) :
    readUInt32LE (pre ++ (uint32leBytes v ++ post)) pre.length = v := by
  have h0 : ∀ k : Nat, (pre ++ (uint32leBytes v ++ post)).getD (pre.length + k) 0 =
      (uint32leBytes v ++ post).getD k 0 := by
    intro k
    rw [List.getD_append_right _ _ _ _ (Nat.le_add_right _ _)]
    congr 1
    omega
  have e0 := h0 0
  have e1 := h0 1
  have e2 := h0 2
  have e3 := h0 3
  simp only [Nat.add_zero] at e0
  unfold readUInt32LE
  rw [e0, e1, e2, e3]
  simp only [uint32leBytes, List.cons_append, List.getD_cons_zero,
    List.getD_cons_succ]
  omega

/-- The synthesized header is exactly 44 bytes long. -/
theorem combine_header_length (a b c d : Nat) (e f g : Nat) :
    ([82, 73, 70, 70] ++ uint32leBytes a ++ [87, 65, 86, 69]
      ++ [102, 109, 116, 32] ++ uint32leBytes 16 ++ uint16leBytes 1
      ++ uint16leBytes b ++ uint32leBytes c
      ++ uint32leBytes d ++ uint16leBytes e
      ++ uint16leBytes f
      ++ [100, 97, 116, 97] ++ uint32leBytes g).length = 44 := by
  simp [uint32leBytes, uint16leBytes]

/-- Length of the prefix of the synthesized header that precedes the
`data`-size field (everything up to and including the ASCII "data" tag). -/
theorem combine_prefix40_length (a b c d : Nat) (e f : Nat) :
    ([82, 73, 70, 70] ++ uint32leBytes a ++ [87, 65, 86, 69]
      ++ [102, 109, 116, 32] ++ uint32leBytes 16 ++ uint16leBytes 1
      ++ uint16leBytes b ++ uint32leBytes c
      ++ uint32leBytes d ++ uint16leBytes e
      ++ uint16leBytes f
      ++ [100, 97, 116, 97]).length = 40 := by
  simp [uint32leBytes, uint16leBytes]

/-- Reading the `data`-size field (offset 40) of a synthesized header. -/
theorem readUInt32LE_header_data (tfs nc sr br ba bps total : Nat)
    (post : List Nat) (h : total < 4294967296) :
    readUInt32LE (([82, 73, 70, 70] ++ uint32leBytes tfs ++ [87, 65, 86, 69]
      ++ [102, 109, 116, 32] ++ uint32leBytes 16 ++ uint16leBytes 1
      ++ uint16leBytes nc ++ uint32leBytes sr ++ uint32leBytes br
      ++ uint16leBytes ba ++ uint16leBytes bps
      ++ [100, 97, 116, 97] ++ uint32leBytes total) ++ post) 40 = total := by
  have h40 := combine_prefix40_length tfs nc sr br ba bps
  have hr := readUInt32LE_append
    ([82, 73, 70, 70] ++ uint32leBytes tfs ++ [87, 65, 86, 69]
      ++ [102, 109, 116, 32] ++ uint32leBytes 16 ++ uint16leBytes 1
      ++ uint16leBytes nc ++ uint32leBytes sr ++ uint32leBytes br
      ++ uint16leBytes ba ++ uint16leBytes bps ++ [100, 97, 116, 97])
    post total h
  rw [h40] at hr
  simp only [List.append_assoc] at hr ⊢
  exact hr

/-- Reading the RIFF-size field (offset 4) of a synthesized header. -/
theorem readUInt32LE_header_riff (tfs nc sr br ba bps total : Nat)
    (post : List Nat) (h : tfs < 4294967296) :
    readUInt32LE (([82, 73, 70, 70] ++ uint32leBytes tfs ++ [87, 65, 86, 69]
      ++ [102, 109, 116, 32] ++ uint32leBytes 16 ++ uint16leBytes 1
      ++ uint16leBytes nc ++ uint32leBytes sr ++ uint32leBytes br
      ++ uint16leBytes ba ++ uint16leBytes bps
      ++ [100, 97, 116, 97] ++ uint32leBytes total) ++ post) 4 = tfs := by
  have hr := readUInt32LE_append [82, 73, 70, 70]
    ([87, 65, 86, 69] ++ [102, 109, 116, 32] ++ uint32leBytes 16
      ++ uint16leBytes 1 ++ uint16leBytes nc ++ uint32leBytes sr
      ++ uint32leBytes br ++ uint16leBytes ba ++ uint16leBytes bps
      ++ [100, 97, 116, 97] ++ uint32leBytes total ++ post) tfs h
  norm_num at hr
  simp only [List.append_assoc] at hr ⊢
  exact hr

end WavLemmas

/-- C1.  For every non-empty list of WAV buffers whose declared data-chunk
size at offset 40 does not exceed the bytes actually present (and whose
summed payload fits the 32-bit size fields), `combineWavBuffers` returns a
buffer whose payload (everything after the 44-byte header) is the
concatenation of the inputs' payloads in input order, whose `data`-size
field equals the sum of the input payload lengths, and whose RIFF-size
field equals the total output length minus 8. -/
theorem combineWavBuffers_spec (b : List Nat) (bs : List (List Nat))
    (_hdecl : ∀ x ∈ b :: bs, 44 + wavDataSize x ≤ x.length)
    (hsum : (((b :: bs).map wavPayload).map List.length).sum + 36 < 4294967296) :
    ∃ out, combineWavBuffers (b :: bs) = some out ∧
      out.drop 44 = ((b :: bs).map wavPayload).flatten ∧
      readUInt32LE out 40 = (((b :: bs).map wavPayload).map List.length).sum ∧
      readUInt32LE out 4 = out.length - 8 := by
  have hc : combineWavBuffers (b :: bs) =
      some ([82, 73, 70, 70]
        ++ uint32leBytes (44 + (((b :: bs).map wavPayload).map List.length).sum - 8)
        ++ [87, 65, 86, 69]
        ++ [102, 109, 116, 32] ++ uint32leBytes 16 ++ uint16leBytes 1
        ++ uint16leBytes (readUInt16LE b 22) ++ uint32leBytes (readUInt32LE b 24)
        ++ uint32leBytes (readUInt32LE b 24 * (readUInt16LE b 22 * (readUInt16LE b 34 / 8)))
        ++ uint16leBytes (readUInt16LE b 22 * (readUInt16LE b 34 / 8))
        ++ uint16leBytes (readUInt16LE b 34)
        ++ [100, 97, 116, 97]
        ++ uint32leBytes (((b :: bs).map wavPayload).map List.length).sum
        ++ ((b :: bs).map wavPayload).flatten) := rfl
  refine ⟨_, hc, ?_, ?_, ?_⟩
  · have hd := List.drop_left
      ([82, 73, 70, 70]
        ++ uint32leBytes (44 + (((b :: bs).map wavPayload).map List.length).sum - 8)
        ++ [87, 65, 86, 69]
        ++ [102, 109, 116, 32] ++ uint32leBytes 16 ++ uint16leBytes 1
        ++ uint16leBytes (readUInt16LE b 22) ++ uint32leBytes (readUInt32LE b 24)
        ++ uint32leBytes (readUInt32LE b 24 * (readUInt16LE b 22 * (readUInt16LE b 34 / 8)))
        ++ uint16leBytes (readUInt16LE b 22 * (readUInt16LE b 34 / 8))
        ++ uint16leBytes (readUInt16LE b 34)
        ++ [100, 97, 116, 97]
        ++ uint32leBytes (((b :: bs).map wavPayload).map List.length).sum)
      (((b :: bs).map wavPayload).flatten)
    rw [combine_header_length] at hd
    exact hd
  · exact readUInt32LE_header_data _ _ _ _ _ _ _ _ (by omega)
  · have hlen :
        (([82, 73, 70, 70]
        ++ uint32leBytes (44 + (((b :: bs).map wavPayload).map List.length).sum - 8)
        ++ [87, 65, 86, 69]
        ++ [102, 109, 116, 32] ++ uint32leBytes 16 ++ uint16leBytes 1
        ++ uint16leBytes (readUInt16LE b 22) ++ uint32leBytes (readUInt32LE b 24)
        ++ uint32leBytes (readUInt32LE b 24 * (readUInt16LE b 22 * (readUInt16LE b 34 / 8)))
        ++ uint16leBytes (readUInt16LE b 22 * (readUInt16LE b 34 / 8))
        ++ uint16leBytes (readUInt16LE b 34)
        ++ [100, 97, 116, 97]
        ++ uint32leBytes (((b :: bs).map wavPayload).map List.length).sum)
        ++ ((b :: bs).map wavPayload).flatten).length =
        44 + (((b :: bs).map wavPayload).map List.length).sum := by
      rw [List.length_append, combine_header_length, List.length_flatten]
    rw [hlen]
    have hr := readUInt32LE_header_riff
      (44 + (((b :: bs).map wavPayload).map List.length).sum - 8)
      (readUInt16LE b 22) (readUInt32LE b 24)
      (readUInt32LE b 24 * (readUInt16LE b 22 * (readUInt16LE b 34 / 8)))
      (readUInt16LE b 22 * (readUInt16LE b 34 / 8)) (readUInt16LE b 34)
      ((((b :: bs).map wavPayload).map List.length).sum)
      (((b :: bs).map wavPayload).flatten) (by omega)
    rw [hr]

/-- A concrete mono 16-bit 44.1 kHz WAV buffer with a 2-byte payload. -/
def wavA : List Nat :=
  [82, 73, 70, 70, 38, 0, 0, 0, 87, 65, 86, 69,
   102, 109, 116, 32, 16, 0, 0, 0, 1, 0, 1, 0,
   68, 172, 0, 0, 136, 88, 1, 0, 2, 0, 16, 0,
   100, 97, 116, 97, 2, 0, 0, 0, 10, 20]

/-- A concrete mono 16-bit 44.1 kHz WAV buffer with a 3-byte payload. -/
def wavB : List Nat :=
  [82, 73, 70, 70, 39, 0, 0, 0, 87, 65, 86, 69,
   102, 109, 116, 32, 16, 0, 0, 0, 1, 0, 1, 0,
   68, 172, 0, 0, 136, 88, 1, 0, 2, 0, 16, 0,
   100, 97, 116, 97, 3, 0, 0, 0, 1, 2, 3]

/-- Witness for C1: `combineWavBuffers_spec` instantiated at `[wavA, wavB]`. -/
theorem combineWavBuffers_spec_witness :
    (∀ x ∈ wavA :: [wavB], 44 + wavDataSize x ≤ x.length) ∧
    (∃ out, combineWavBuffers (wavA :: [wavB]) = some out ∧
      out.drop 44 = ((wavA :: [wavB]).map wavPayload).flatten ∧
      readUInt32LE out 40 = (((wavA :: [wavB]).map wavPayload).map List.length).sum ∧
      readUInt32LE out 4 = out.length - 8) :=
  ⟨by decide, combineWavBuffers_spec wavA [wavB] (by decide) (by decide)⟩

/-- C8 (amended).  The duration of a combined buffer is
`Math.round(totalPayloadBytes / 88200)` with the divisor hard-coded for
mono 16-bit 44.1 kHz audio — it does not depend on the header's sample
rate, bit depth or channel count. -/
theorem estimateAudioDuration_combine (b : List Nat) (bs : List (List Nat))
    (out : List Nat) (h : combineWavBuffers (b :: bs) = some out) :
    estimateAudioDuration out =
      Int.fdiv (2 * ((((b :: bs).map wavPayload).map List.length).sum : Int)
        + 88200) (2 * 88200) := by
  have hc : combineWavBuffers (b :: bs) =
      some ([82, 73, 70, 70]
        ++ uint32leBytes (44 + (((b :: bs).map wavPayload).map List.length).sum - 8)
        ++ [87, 65, 86, 69]
        ++ [102, 109, 116, 32] ++ uint32leBytes 16 ++ uint16leBytes 1
        ++ uint16leBytes (readUInt16LE b 22) ++ uint32leBytes (readUInt32LE b 24)
        ++ uint32leBytes (readUInt32LE b 24 * (readUInt16LE b 22 * (readUInt16LE b 34 / 8)))
        ++ uint16leBytes (readUInt16LE b 22 * (readUInt16LE b 34 / 8))
        ++ uint16leBytes (readUInt16LE b 34)
        ++ [100, 97, 116, 97]
        ++ uint32leBytes (((b :: bs).map wavPayload).map List.length).sum
        ++ ((b :: bs).map wavPayload).flatten) := rfl
  have hout := (Option.some.inj (hc.symm.trans h)).symm
  have hlen : out.length = 44 + (((b :: bs).map wavPayload).map List.length).sum := by
    rw [hout, List.length_append, combine_header_length, List.length_flatten]
  simp only [estimateAudioDuration]
  rw [hlen]
  congr 1
  push_cast
  ring

/-- A 44-byte stereo (2-channel) 16-bit 44.1 kHz WAV header declaring a
44100-byte data chunk. -/
def stereoHeader : List Nat :=
  [82, 73, 70, 70, 0, 0, 0, 0, 87, 65, 86, 69,
   102, 109, 116, 32, 16, 0, 0, 0, 1, 0, 2, 0,
   68, 172, 0, 0, 16, 177, 2, 0, 4, 0, 16, 0,
   100, 97, 116, 97, 68, 172, 0, 0]

/-- A stereo WAV buffer with a 44100-byte payload. -/
def ceWav : List Nat := stereoHeader ++ List.replicate 44100 0

/-- C8 counterexample: on a stereo buffer the code's estimate
(`round(44100 / 88200) = 1`) differs from the header-derived formula the
claim states (`round(44100 / (44100·2·2)) = 0`). -/
theorem estimateAudioDuration_ne_specHeaderDuration :
    estimateAudioDuration ceWav = 1 ∧ specHeaderDuration ceWav = 0 ∧
    estimateAudioDuration ceWav ≠ specHeaderDuration ceWav := by
  have hsl : stereoHeader.length = 44 := by decide
  have hlen : ceWav.length = 44144 := by
    rw [ceWav, List.length_append, hsl, List.length_replicate]
  have hget : ∀ n, n < 44 → ceWav.getD n 0 = stereoHeader.getD n 0 := by
    intro n hn
    exact List.getD_append _ _ _ _ (by rw [hsl]; exact hn)
  have h22 : readUInt16LE ceWav 22 = 2 := by
    unfold readUInt16LE
    rw [hget 22 (by omega), hget 23 (by omega)]
    decide
  have h24 : readUInt32LE ceWav 24 = 44100 := by
    unfold readUInt32LE
    rw [hget 24 (by omega), hget 25 (by omega), hget 26 (by omega),
      hget 27 (by omega)]
    decide
  have h34 : readUInt16LE ceWav 34 = 16 := by
    unfold readUInt16LE
    rw [hget 34 (by omega), hget 35 (by omega)]
    decide
  have h1 : estimateAudioDuration ceWav = 1 := by
    simp only [estimateAudioDuration]
    rw [hlen]
    decide
  have h2 : specHeaderDuration ceWav = 0 := by
    simp only [specHeaderDuration]
    rw [h22, h24, h34, hlen]
    decide
  exact ⟨h1, h2, by rw [h1, h2]; decide⟩

/-- The concrete combination of `wavA` and `wavB`. -/
def wavAB : List Nat := (combineWavBuffers [wavA, wavB]).getD []

/-- Witness for C8 (amended): `estimateAudioDuration_combine` instantiated
at `[wavA, wavB]`. -/
theorem estimateAudioDuration_combine_witness :
    combineWavBuffers [wavA, wavB] = some wavAB ∧
    estimateAudioDuration wavAB =
      Int.fdiv (2 * ((([wavA, wavB].map wavPayload).map List.length).sum : Int)
        + 88200) (2 * 88200) :=
  ⟨by decide, estimateAudioDuration_combine wavA [wavB] wavAB (by decide)⟩

/-! ## JavaScript string primitives -/

/-- The JavaScript whitespace class (`\s`, also used by `String.trim`):
ASCII whitespace plus NBSP and the BOM. -/
def jsWhitespace (c : Char) : Bool :=
  c = ' ' || c = '\t' || c = '\n' || c.toNat = 11 || c.toNat = 12 ||
    c = '\r' || c.toNat = 160 || c.toNat = 65279

/-- `String.prototype.trim`: strip leading and trailing whitespace. -/
def jsTrim (l : List Char) : List Char :=
  ((l.dropWhile jsWhitespace).reverse.dropWhile jsWhitespace).reverse

/-- All start indices at which `pat` occurs in `l`, in ascending order.
`indexOf` is the head of this list, `lastIndexOf` its last element. -/
def subIndices (pat l : List Char) : List Nat :=
  (List.range (l.length + 1)).filter (fun i => pat.isPrefixOf (l.drop i))

/-- `String.prototype.includes`: substring test. -/
def jsIncludes (l pat : List Char) : Bool := !(subIndices pat l).isEmpty

theorem jsIncludes_of_isPrefixOf (l pat : List Char) (i : Nat)
    (h : pat.isPrefixOf (l.drop i) = true) : jsIncludes l pat = true := by
  rcases Nat.le_total i l.length with hi | hi
  · have hmem : i ∈ subIndices pat l := by
      simp only [subIndices, List.mem_filter, List.mem_range]
      exact ⟨by omega, h⟩
    simp only [jsIncludes, Bool.not_eq_true']
    cases he : subIndices pat l with
    | nil => rw [he] at hmem; simp at hmem
    | cons a rest => rfl
  · have hdrop : l.drop i = [] := List.drop_eq_nil_of_le (by omega)
    have h' : pat.isPrefixOf (l.drop l.length) = true := by
      rw [List.drop_length]
      rw [hdrop] at h
      exact h
    have hmem : l.length ∈ subIndices pat l := by
      simp only [subIndices, List.mem_filter, List.mem_range]
      exact ⟨by omega, h'⟩
    simp only [jsIncludes, Bool.not_eq_true']
    cases he : subIndices pat l with
    | nil => rw [he] at hmem; simp at hmem
    | cons a rest => rfl

theorem jsIncludes_cons_of_tail (c : Char) (cs pat : List Char)
    (h : jsIncludes (c :: cs) pat = false) : jsIncludes cs pat = false := by
  by_contra hne
  rw [Bool.not_eq_false] at hne
  simp only [jsIncludes, Bool.not_eq_true'] at hne
  have : ∃ i, i ∈ subIndices pat cs := by
    cases he : subIndices pat cs with
    | nil => rw [he] at hne; simp at hne
    | cons a rest => exact ⟨a, List.mem_cons_self a rest⟩
  obtain ⟨i, hi⟩ := this
  simp only [subIndices, List.mem_filter, List.mem_range] at hi
  have : jsIncludes (c :: cs) pat = true :=
    jsIncludes_of_isPrefixOf (c :: cs) pat (i + 1) (by simpa using hi.2)
  rw [h] at this
  exact absurd this (by simp)

/-! ## `streamChatCompletion`'s think-span filter (`src/lib/llm.ts`) -/

/-- The literal open tag. -/
def thinkOpen : List Char := "<think>".toList

/-- The literal close tag. -/
def thinkClose : List Char := "</think>".toList

/-- One global pass of the regex `/<think>[\s\S]*?<\/think>/g`, fuelled
(the fuel only needs to exceed the number of matches; each match consumes
at least 8 characters).  Returns the concatenation of the unmatched
segments *before* the final match together with the regex's `lastIndex`
after the final match: the JS replace result is `parts ++ l.drop lastIndex`.
A match starts at the earliest `<think>` and ends at the earliest
`</think>` opening at least 7 characters later (non-greedy `[\s\S]*?`). -/
def stripThinkF : Nat → List Char → List Char × Nat
  | 0, _ => ([], 0)
  | fuel + 1, l =>
    match (subIndices thinkOpen l).head? with
    | none => ([], 0)
    | some i =>
      match ((subIndices thinkClose l).filter (fun j => i + 7 ≤ j)).head? with
      | none => ([], 0)
      | some j =>
        let r := stripThinkF fuel (l.drop (j + 8))
        (l.take i ++ r.1, j + 8 + r.2)

/-- `stripThinkF` with enough fuel for any input. -/
def stripThink (l : List Char) : List Char × Nat := stripThinkF (l.length + 1) l

/-- `s.replace(/<think>[\s\S]*?<\/think>/g, "")`. -/
def replaceThinkAll (l : List Char) : List Char :=
  (stripThink l).1 ++ l.drop (stripThink l).2

/-- One iteration of `streamChatCompletion`'s per-delta filtering: append
the incoming delta to `contentBuffer`, remove complete think spans, detect
a trailing incomplete `<think>` via `lastIndexOf`, and yield the cleaned
content when its trim is non-empty.  Returns the new buffer and the
optional yielded delta.  (The SSE line framing and JSON envelope parsing
around this logic are transport plumbing and are elided; each call models
one successfully parsed non-empty `delta.content`.) -/
def processChunk (buf chunk : List Char) : List Char × Option (List Char) :=
  let cb := buf ++ chunk
  let s := stripThink cb
  let lastOpen := (subIndices thinkOpen cb).getLast?
  let lastClose := (subIndices thinkClose cb).getLast?
  let incomplete : Option Nat :=
    match lastOpen, lastClose with
    | some i, some j => if j < i then some i else none
    | some i, none => some i
    | none, _ => none
  match incomplete with
  | some i =>
    let clean := s.1 ++ (cb.drop s.2).take (i - s.2)
    (cb.drop i, if (jsTrim clean).isEmpty then none else some clean)
  | none =>
    let clean := s.1 ++ cb.drop s.2
    ([], if (jsTrim clean).isEmpty then none else some clean)

/-- The `[DONE]` handler: if the residual buffer trims non-empty, remove
complete think spans and yield the result when it trims non-empty. -/
def doneFlush (buf : List Char) : Option (List Char) :=
  if (jsTrim buf).isEmpty then none
  else
    let fc := replaceThinkAll buf
    if (jsTrim fc).isEmpty then none else some fc

/-- The deltas yielded by `streamChatCompletion` for a given sequence of
received `delta.content` chunks, ending with the `[DONE]` flush. -/
def streamDeltas : List Char → List (List Char) → List (List Char)
  | buf, [] =>
    match doneFlush buf with
    | some d => [d]
    | none => []
  | buf, c :: cs =>
    match processChunk buf c with
    | (b, some d) => d :: streamDeltas b cs
    | (b, none) => streamDeltas b cs

/-- All deltas yielded by `streamChatCompletion` (initial buffer empty). -/
def streamChatCompletionDeltas (chunks : List (List Char)) : List (List Char) :=
  streamDeltas [] chunks

/-- The adversarial chunk: removing the inner complete think span
re-assembles a new `<think>…</think>` span around `abc`. -/
def thinkCeChunk : List Char := "<thi<think>Z</think>nk>abc</think>".toList

/-- C2: `streamChatCompletion` yields a delta that contains the literal
substring `<think>` (in fact a complete, unsuppressed think span): after
the inner span `<think>Z</think>` is removed, the surrounding text
re-forms `<think>abc</think>`, which is yielded verbatim instead of being
suppressed.  (The same mechanism also leaks think content when the open
tag is split across network chunks, e.g. `"hello <thi"` then
`"nk>secret</think> world"`.) -/
theorem streamChatCompletion_yields_think_tag :
    streamChatCompletionDeltas [thinkCeChunk] = ["<think>abc</think>".toList] ∧
    jsIncludes "<think>abc</think>".toList thinkOpen = true := by decide

/-! ## `cleanResponseForJSON` (`src/lib/llm-utils.ts`) -/

/-- One global pass of an alternation of literal patterns replaced by the
empty string: at each position the first alternative that matches is
consumed (scanning resumes after it), otherwise one character is kept.
Fuel decreases every step; `length + 1` is always enough. -/
def removeLiteralsF (alts : List (List Char)) : Nat → List Char → List Char
  | 0, l => l
  | _ + 1, [] => []
  | fuel + 1, c :: cs =>
    match alts.find? (fun p => p.isPrefixOf (c :: cs)) with
    | some p => removeLiteralsF alts fuel ((c :: cs).drop p.length)
    | none => c :: removeLiteralsF alts fuel cs

/-- The alternatives of `/```json\n?|```\n?/g` in regex preference order
(first alternative, greedy optional newline first). -/
def jsonFenceAlts : List (List Char) :=
  ["```json\n".toList, "```json".toList, "```\n".toList, "```".toList]

/-- The alternatives of `/```typescript\n?|```ts\n?/g`. -/
def tsFenceAlts : List (List Char) :=
  ["```typescript\n".toList, "```typescript".toList, "```ts\n".toList,
    "```ts".toList]

/-- `s.replace(/```json\n?|```\n?/g, "")`. -/
def removeJsonFences (l : List Char) : List Char :=
  removeLiteralsF jsonFenceAlts (l.length + 1) l

/-- `s.replace(/```typescript\n?|```ts\n?/g, "")`. -/
def removeTsFences (l : List Char) : List Char :=
  removeLiteralsF tsFenceAlts (l.length + 1) l

/-- The brace-narrowing step of `cleanResponseForJSON`: slice from the
first `{` through the last `}` when both exist in that order. -/
def braceSlice (l : List Char) : List Char :=
  match (subIndices ['{'] l).head?, (subIndices ['}'] l).getLast? with
  | some i, some j => if i < j then (l.drop i).take (j + 1 - i) else l
  | some _, none => l
  | none, _ => l

/-- `cleanResponseForJSON` from `src/lib/llm-utils.ts`: remove complete
think spans, strip markdown fences, trim, then narrow to the outermost
braces. -/
def cleanResponseForJSON (response : List Char) : List Char :=
  let c1 := replaceThinkAll response
  let c2 := removeJsonFences c1
  let c3 := removeTsFences c2
  let cleaned := jsTrim c3
  braceSlice cleaned

/-- Adversarial sanitizer input: removing the inner think span re-forms a
new `<think>…</think>` span, which only a second pass removes. -/
def sanCe : List Char := "<thi<think>Z</think>nk>abc</think>".toList

/-- C4 counterexample: `cleanResponseForJSON` is not idempotent.  On
`sanCe` one pass yields `<think>abc</think>` while a second pass yields
the empty string. -/
theorem cleanResponseForJSON_not_idempotent :
    cleanResponseForJSON sanCe = "<think>abc</think>".toList ∧
    cleanResponseForJSON (cleanResponseForJSON sanCe) = [] ∧
    cleanResponseForJSON (cleanResponseForJSON sanCe) ≠
      cleanResponseForJSON sanCe := by decide

/-- Whether the think-span regex has any match in `l` (a `<think>` with a
`</think>` starting at least 7 characters later). -/
def hasThinkMatch (l : List Char) : Bool :=
  match (subIndices thinkOpen l).head? with
  | none => false
  | some i => !((subIndices thinkClose l).filter (fun j => i + 7 ≤ j)).isEmpty

/-- If the think-span regex has no match, the replace pass is the identity. -/
theorem replaceThinkAll_of_no_match (l : List Char)
    (h : hasThinkMatch l = false) : replaceThinkAll l = l := by
  cases ho : (subIndices thinkOpen l).head? with
  | none => simp [replaceThinkAll, stripThink, stripThinkF, ho]
  | some i =>
    cases hc : ((subIndices thinkClose l).filter (fun j => i + 7 ≤ j)).head? with
    | none => simp [replaceThinkAll, stripThink, stripThinkF, ho, hc]
    | some j =>
      exfalso
      unfold hasThinkMatch at h
      rw [ho] at h
      rw [Bool.not_eq_false'] at h
      rw [List.isEmpty_iff] at h
      rw [h] at hc
      simp at hc

/-- A literal-removal pass whose alternatives all start with `trip` is the
identity on strings not containing `trip`. -/
theorem removeLiteralsF_eq_self (alts : List (List Char)) (trip : List Char)
    (halts : ∀ p ∈ alts, trip.isPrefixOf p = true) :
    ∀ (fuel : Nat) (l : List Char), jsIncludes l trip = false →
      removeLiteralsF alts fuel l = l := by
  intro fuel
  induction fuel with
  | zero => intro l _; rfl
  | succ f ih =>
    intro l hl
    cases l with
    | nil => rfl
    | cons c cs =>
      have hfind : alts.find? (fun p => p.isPrefixOf (c :: cs)) = none := by
        rw [List.find?_eq_none]
        intro p hp hpre
        have htrip : trip.isPrefixOf (c :: cs) = true := by
          have h1 := List.isPrefixOf_iff_prefix.mp (halts p hp)
          have h2 := List.isPrefixOf_iff_prefix.mp hpre
          exact List.isPrefixOf_iff_prefix.mpr (h1.trans h2)
        have : jsIncludes (c :: cs) trip = true :=
          jsIncludes_of_isPrefixOf (c :: cs) trip 0 (by simpa using htrip)
        rw [hl] at this
        exact absurd this (by simp)
      simp only [removeLiteralsF, hfind]
      rw [ih cs (jsIncludes_cons_of_tail c cs trip hl)]

/-- No triple backtick means the json-fence pass is the identity. -/
theorem removeJsonFences_eq_self (l : List Char)
    (h : jsIncludes l "```".toList = false) : removeJsonFences l = l :=
  removeLiteralsF_eq_self jsonFenceAlts "```".toList (by decide) _ l h

/-- No triple backtick means the ts-fence pass is the identity. -/
theorem removeTsFences_eq_self (l : List Char)
    (h : jsIncludes l "```".toList = false) : removeTsFences l = l :=
  removeLiteralsF_eq_self tsFenceAlts "```".toList (by decide) _ l h

/-- The head of a `dropWhile` never satisfies the dropped predicate. -/
theorem dropWhile_head_false (p : Char → Bool) (l : List Char) :
    ∀ c ∈ (l.dropWhile p).head?, p c = false := by
  induction l with
  | nil => simp
  | cons c cs ih =>
    rw [List.dropWhile_cons]
    by_cases h : p c
    · simpa [h] using ih
    · simp [h]

/-- `dropWhile` is the identity when the head does not satisfy `p`. -/
theorem dropWhile_eq_self_of_head (p : Char → Bool) (l : List Char)
    (h : ∀ c ∈ l.head?, p c = false) : l.dropWhile p = l := by
  cases l with
  | nil => rfl
  | cons c cs =>
    rw [List.dropWhile_cons]
    have := h c (by simp)
    simp [this]

/-- A non-empty `dropWhile` keeps the original last element. -/
theorem getLast?_dropWhile (p : Char → Bool) (l : List Char)
    (h : l.dropWhile p ≠ []) : (l.dropWhile p).getLast? = l.getLast? := by
  induction l with
  | nil => simp at h
  | cons c cs ih =>
    rw [List.dropWhile_cons] at h ⊢
    by_cases hc : p c
    · simp only [hc, if_true] at h ⊢
      rw [ih h]
      have hcs : cs ≠ [] := by
        intro he
        rw [he] at h
        simp at h
      cases cs with
      | nil => exact absurd rfl hcs
      | cons d ds => exact (List.getLast?_cons_cons).symm
    · simp [hc]

/-- `jsTrim` is the identity when head and last are not whitespace. -/
theorem jsTrim_eq_self (l : List Char)
    (h1 : ∀ c ∈ l.head?, jsWhitespace c = false)
    (h2 : ∀ c ∈ l.getLast?, jsWhitespace c = false) : jsTrim l = l := by
  unfold jsTrim
  rw [dropWhile_eq_self_of_head _ _ h1]
  rw [dropWhile_eq_self_of_head _ _ (by rw [List.head?_reverse]; exact h2)]
  exact List.reverse_reverse l

/-- The head of a trimmed string is not whitespace. -/
theorem jsTrim_head (l : List Char) :
    ∀ c ∈ (jsTrim l).head?, jsWhitespace c = false := by
  intro c hc
  unfold jsTrim at hc
  rw [List.head?_reverse] at hc
  by_cases hnil :
      ((l.dropWhile jsWhitespace).reverse.dropWhile jsWhitespace) = []
  · rw [hnil] at hc
    simp at hc
  · rw [getLast?_dropWhile _ _ hnil] at hc
    rw [List.getLast?_reverse] at hc
    exact dropWhile_head_false jsWhitespace l c hc

/-- The last element of a trimmed string is not whitespace. -/
theorem jsTrim_getLast (l : List Char) :
    ∀ c ∈ (jsTrim l).getLast?, jsWhitespace c = false := by
  intro c hc
  unfold jsTrim at hc
  rw [List.getLast?_reverse] at hc
  exact dropWhile_head_false jsWhitespace _ c hc

/-- `jsTrim` is idempotent. -/
theorem jsTrim_idem (l : List Char) : jsTrim (jsTrim l) = jsTrim l :=
  jsTrim_eq_self _ (jsTrim_head l) (jsTrim_getLast l)

/-- A singleton pattern is a prefix exactly when it is the head. -/
theorem singleton_isPrefixOf_iff (a : Char) (s : List Char) :
    ([a] : List Char).isPrefixOf s = true ↔ s.head? = some a := by
  cases s with
  | nil => simp [List.isPrefixOf]
  | cons b t =>
    simp [List.isPrefixOf]
    constructor
    · intro h; exact h.symm
    · intro h; exact h.symm

/-- Taking a positive prefix keeps the head. -/
theorem head?_take_pos (l : List Char) (n : Nat) (h : 0 < n) :
    (l.take n).head? = l.head? := by
  cases l with
  | nil => simp
  | cons c cs =>
    cases n with
    | zero => omega
    | succ m => simp

/-- Membership in `subIndices`. -/
theorem mem_subIndices_iff (pat l : List Char) (i : Nat) :
    i ∈ subIndices pat l ↔ i ≤ l.length ∧ pat.isPrefixOf (l.drop i) = true := by
  simp only [subIndices, List.mem_filter, List.mem_range]
  constructor
  · rintro ⟨h1, h2⟩; exact ⟨by omega, h2⟩
  · rintro ⟨h1, h2⟩; exact ⟨by omega, h2⟩

/-- The last element of a list, as a member. -/
theorem mem_of_getLast?_eq {α : Type} (l : List α) (a : α)
    (h : l.getLast? = some a) : a ∈ l := by
  have hx : a ∈ l.getLast? := by rw [h]; rfl
  obtain ⟨hne, he⟩ := List.mem_getLast?_eq_getLast hx
  rw [he]
  exact List.getLast_mem hne

/-- Head of a filtered range when the predicate holds at 0. -/
theorem head?_filter_range (p : Nat → Bool) (n : Nat) (hp0 : p 0 = true) :
    ((List.range (n + 1)).filter p).head? = some 0 := by
  rw [List.range_succ_eq_map, List.filter_cons, if_pos hp0]
  rfl

/-- Last element of a filtered range: the largest index satisfying `p`. -/
theorem getLast?_filter_range (p : Nat → Bool) :
    ∀ (n m : Nat), m < n → p m = true → (∀ k, m < k → k < n → p k = false) →
      ((List.range n).filter p).getLast? = some m := by
  intro n
  induction n with
  | zero => intro m hm; omega
  | succ n ih =>
    intro m hm hpm hub
    rw [List.range_succ, List.filter_append]
    by_cases hmn : m = n
    · subst hmn
      rw [List.filter_cons, if_pos hpm, List.filter_nil]
      exact List.getLast?_concat _
    · have hn : p n = false := hub n (by omega) (by omega)
      rw [List.filter_cons, if_neg (by rw [hn]; simp), List.filter_nil,
        List.append_nil]
      exact ih m (by omega) hpm (fun k h1 h2 => hub k h1 (by omega))

/-- `jsTrim` and `braceSlice` are both the identity on the result of
`braceSlice` applied to an already-trimmed string. -/
theorem braceSlice_stable (z : List Char) (hz : jsTrim z = z) :
    jsTrim (braceSlice z) = braceSlice z ∧
      braceSlice (braceSlice z) = braceSlice z := by
  cases hb1 : (subIndices ['{'] z).head? with
  | none =>
    have hbz : braceSlice z = z := by unfold braceSlice; rw [hb1]
    rw [hbz]
    exact ⟨hz, hbz⟩
  | some i =>
    cases hb2 : (subIndices ['}'] z).getLast? with
    | none =>
      have hbz : braceSlice z = z := by unfold braceSlice; rw [hb1, hb2]
      rw [hbz]
      exact ⟨hz, hbz⟩
    | some j =>
      by_cases hij : i < j
      case neg =>
        have hbz : braceSlice z = z := by
          unfold braceSlice
          rw [hb1, hb2]
          show (if i < j then List.take (j + 1 - i) (List.drop i z) else z) = z
          rw [if_neg hij]
        rw [hbz]
        exact ⟨hz, hbz⟩
      case pos =>
        have hbz : braceSlice z = (z.drop i).take (j + 1 - i) := by
          unfold braceSlice
          rw [hb1, hb2]
          show (if i < j then List.take (j + 1 - i) (List.drop i z) else z) = _
          rw [if_pos hij]
        obtain ⟨hilen, hipre⟩ := (mem_subIndices_iff _ _ _).mp
          (List.mem_of_mem_head? (show i ∈ (subIndices ['{'] z).head? by
            rw [hb1]; rfl))
        obtain ⟨hjlen, hjpre⟩ := (mem_subIndices_iff _ _ _).mp
          (mem_of_getLast?_eq _ _ hb2)
        have hiHead : (z.drop i).head? = some '{' :=
          (singleton_isPrefixOf_iff _ _).mp hipre
        have hjHead : (z.drop j).head? = some '}' :=
          (singleton_isPrefixOf_iff _ _).mp hjpre
        have hjlt : j < z.length := by
          by_contra hle
          rw [List.drop_eq_nil_of_le (by omega)] at hjHead
          simp at hjHead
        have hzj : z[j]? = some '}' := by
          rw [← Nat.add_zero j, ← List.getElem?_drop, ← List.head?_eq_getElem?]
          exact hjHead
        set y := (z.drop i).take (j + 1 - i) with hy
        have hylen : y.length = j + 1 - i := by
          rw [hy, List.length_take, List.length_drop]
          omega
        have hyhead : y.head? = some '{' := by
          rw [hy, head?_take_pos _ _ (by omega)]
          exact hiHead
        have hylast : y.getLast? = some '}' := by
          rw [List.getLast?_eq_getElem?, hylen]
          have h1 : j + 1 - i - 1 = j - i := by omega
          rw [h1, hy, List.getElem?_take, if_pos (by omega : j - i < j + 1 - i),
            List.getElem?_drop]
          have h2 : i + (j - i) = j := by omega
          rw [h2]
          exact hzj
        have htrimy : jsTrim y = y := by
          apply jsTrim_eq_self
          · intro c hc
            rw [hyhead] at hc
            simp at hc
            subst hc
            decide
          · intro c hc
            rw [hylast] at hc
            simp at hc
            subst hc
            decide
        have hbsy : braceSlice y = y := by
          have hhead0 : (subIndices ['{'] y).head? = some 0 := by
            unfold subIndices
            exact head?_filter_range _ _ (by
              simp only [List.drop_zero]
              exact (singleton_isPrefixOf_iff _ _).mpr hyhead)
          have hylast2 : (subIndices ['}'] y).getLast? = some (y.length - 1) := by
            unfold subIndices
            apply getLast?_filter_range _ _ _ (by omega)
            · have : (y.drop (y.length - 1)).head? = some '}' := by
                rw [List.head?_eq_getElem?, List.getElem?_drop, Nat.add_zero,
                  ← List.getLast?_eq_getElem?]
                exact hylast
              exact (singleton_isPrefixOf_iff _ _).mpr this
            · intro k h1 h2
              have hk : k = y.length := by omega
              subst hk
              have : y.drop y.length = [] := List.drop_length y
              rw [Bool.eq_false_iff]
              intro hcon
              rw [this] at hcon
              exact absurd hcon (by simp [List.isPrefixOf])
          unfold braceSlice
          rw [hhead0, hylast2]
          show (if 0 < y.length - 1 then
            List.take (y.length - 1 + 1 - 0) (List.drop 0 y) else y) = y
          rw [if_pos (by omega : 0 < y.length - 1), List.drop_zero]
          have h3 : y.length - 1 + 1 - 0 = y.length := by omega
          rw [h3, List.take_length]
        rw [hbz]
        exact ⟨htrimy, hbsy⟩

/-- C4 (amended).  `cleanResponseForJSON` is idempotent whenever its output
does not re-form a removable fragment: if the once-sanitized text contains
no complete think span and no triple backtick, a second application is the
identity.  (The counterexample shows this is needed: removal can splice a
new `<think>…</think>` together, which only the second pass removes.) -/
theorem cleanResponseForJSON_idempotent_of_stable (x : List Char)
    (hthink : hasThinkMatch (cleanResponseForJSON x) = false)
    (hfence : jsIncludes (cleanResponseForJSON x) "```".toList = false) :
    cleanResponseForJSON (cleanResponseForJSON x) = cleanResponseForJSON x := by
  have hst := braceSlice_stable
    (jsTrim (removeTsFences (removeJsonFences (replaceThinkAll x))))
    (jsTrim_idem _)
  show braceSlice (jsTrim (removeTsFences (removeJsonFences
    (replaceThinkAll (cleanResponseForJSON x))))) = cleanResponseForJSON x
  rw [replaceThinkAll_of_no_match _ hthink,
    removeJsonFences_eq_self _ hfence, removeTsFences_eq_self _ hfence]
  have e1 : jsTrim (cleanResponseForJSON x) = cleanResponseForJSON x := hst.1
  rw [e1]
  exact hst.2

/-- A typical fenced LLM response used as the idempotence witness input. -/
def fencedResponse : List Char := "```json\n\x7b\"ok\": 1\x7d\n```".toList

/-- Witness for C4 (amended): the sanitizer is idempotent on a typical
fenced response. -/
theorem cleanResponseForJSON_idempotent_witness :
    (hasThinkMatch (cleanResponseForJSON fencedResponse) = false ∧
      jsIncludes (cleanResponseForJSON fencedResponse) "```".toList = false) ∧
    cleanResponseForJSON (cleanResponseForJSON fencedResponse) =
      cleanResponseForJSON fencedResponse :=
  ⟨⟨by decide, by decide⟩,
    cleanResponseForJSON_idempotent_of_stable fencedResponse
      (by decide) (by decide)⟩

/-! ## `fixCommonJSONIssues` (`src/lib/llm-utils.ts`) -/

/-- A global regex replace with empty-overlap-free literal semantics: at
each position, `m c cs` either matches (returning the replacement text and
the remainder after the match) or the character is kept.  Fuel decreases
every step; every match consumes at least one character, so
`length + 1` fuel is always enough. -/
def regexScanF (m : Char → List Char → Option (List Char × List Char)) :
    Nat → List Char → List Char
  | 0, l => l
  | _ + 1, [] => []
  | fuel + 1, c :: cs =>
    match m c cs with
    | some (rep, tail) => rep ++ regexScanF m fuel tail
    | none => c :: regexScanF m fuel cs

/-- Whether the scanner's pattern matches anywhere. -/
def regexTrigF (m : Char → List Char → Option (List Char × List Char)) :
    Nat → List Char → Bool
  | 0, _ => false
  | _ + 1, [] => false
  | fuel + 1, c :: cs => (m c cs).isSome || regexTrigF m fuel cs

/-- If the pattern matches nowhere, the scan is the identity. -/
theorem regexScanF_eq_self
    (m : Char → List Char → Option (List Char × List Char)) :
    ∀ (fuel : Nat) (l : List Char),
      regexTrigF m fuel l = false → regexScanF m fuel l = l := by
  intro fuel
  induction fuel with
  | zero => intro l _; rfl
  | succ f ih =>
    intro l h
    cases l with
    | nil => rfl
    | cons c cs =>
      unfold regexScanF
      unfold regexTrigF at h
      rw [Bool.or_eq_false_iff] at h
      cases hm : m c cs with
      | some rt => rw [hm] at h; simp at h
      | none => rw [ih cs h.2]

/-- Pass 1's pattern, `/,(\s*[}\]])/` at one position: a comma whose next
non-whitespace character is `}` or `]`; the replacement `$1` keeps the
whitespace and the bracket. -/
def pass1Match (c : Char) (cs : List Char) :
    Option (List Char × List Char) :=
  if c = ',' then
    match cs.dropWhile jsWhitespace with
    | b :: rest2 =>
      if b = '}' ∨ b = ']' then
        some (cs.takeWhile jsWhitespace ++ [b], rest2)
      else none
    | [] => none
  else none

/-- Split `run` around its last `\n` (backslash-n) two-character sequence. -/
def lastSplitBN : List Char → Option (List Char × List Char)
  | [] => none
  | c :: cs =>
    match lastSplitBN cs with
    | some (a, b) => some (c :: a, b)
    | none =>
      if c = '\\' then
        match cs with
        | 'n' :: rest => some ([], rest)
        | _ => none
      else none

/-- Pass 2's pattern, `/(":\s*")([^"]*)\\n([^"]*")/` at one position:
inside a `": "…"`-shaped value, the greedy first `[^"]*` picks the last
backslash-n of the quote-free run; the replacement `$1$2 $3` turns it
into a space. -/
def pass2Match (c : Char) (cs : List Char) :
    Option (List Char × List Char) :=
  if c = '"' then
    match cs with
    | ':' :: rest =>
      match rest.dropWhile jsWhitespace with
      | '"' :: body =>
        match body.dropWhile (fun x => x ≠ '"') with
        | '"' :: tail =>
          match lastSplitBN (body.takeWhile (fun x => x ≠ '"')) with
          | some (a, b) =>
            some ('"' :: ':' :: rest.takeWhile jsWhitespace
              ++ '"' :: a ++ ' ' :: b ++ ['"'], tail)
          | none => none
        | _ => none
      | _ => none
    | _ => none
  else none

/-- Pass 3's pattern, `/([{,]\s*)'([^']*)'(\s*:)/` at one position: a
single-quoted property name after `{` or `,`, re-quoted by `$1"$2"$3`. -/
def pass3Match (c : Char) (cs : List Char) :
    Option (List Char × List Char) :=
  if c = '{' ∨ c = ',' then
    match cs.dropWhile jsWhitespace with
    | '\'' :: body =>
      match body.dropWhile (fun x => x ≠ '\'') with
      | '\'' :: tail =>
        match tail.dropWhile jsWhitespace with
        | ':' :: tail2 =>
          some (c :: cs.takeWhile jsWhitespace
            ++ '"' :: body.takeWhile (fun x => x ≠ '\'')
            ++ '"' :: tail.takeWhile jsWhitespace ++ [':'], tail2)
        | _ => none
      | _ => none
    | _ => none
  else none

/-- `[a-zA-Z_]`. -/
def isIdentStart (c : Char) : Bool := c.isAlpha || c = '_'

/-- `[a-zA-Z0-9_]`. -/
def isIdentChar (c : Char) : Bool := c.isAlphanum || c = '_'

/-- Pass 4's pattern, `/([{,]\s*)([a-zA-Z_][a-zA-Z0-9_]*)\s*:/` at one
position: a bare identifier key after `{` or `,`, quoted by `$1"$2":`
(the whitespace before the colon is dropped). -/
def pass4Match (c : Char) (cs : List Char) :
    Option (List Char × List Char) :=
  if c = '{' ∨ c = ',' then
    match cs.dropWhile jsWhitespace with
    | d :: body =>
      if isIdentStart d then
        match (body.dropWhile isIdentChar).dropWhile jsWhitespace with
        | ':' :: tail2 =>
          some (c :: cs.takeWhile jsWhitespace
            ++ '"' :: d :: body.takeWhile isIdentChar ++ ['"', ':'], tail2)
        | _ => none
      else none
    | [] => none
  else none

/-- Pass 5, `.replace(/,(\s*)$/, '$1')` (non-global): remove the first
comma that is followed only by whitespace up to the end of the string. -/
def fixPass5 : List Char → List Char
  | [] => []
  | c :: cs => if c = ',' ∧ cs.all jsWhitespace then cs else c :: fixPass5 cs

/-- `fixCommonJSONIssues` from `src/lib/llm-utils.ts`: the five regex
repairs in source order. -/
def fixCommonJSONIssues (jsonStr : List Char) : List Char :=
  let s1 := regexScanF pass1Match (jsonStr.length + 1) jsonStr
  let s2 := regexScanF pass2Match (s1.length + 1) s1
  let s3 := regexScanF pass3Match (s2.length + 1) s2
  let s4 := regexScanF pass4Match (s3.length + 1) s3
  fixPass5 s4

/-! ## A model of `JSON.parse` (platform function; modelled from the
ECMA-404 / ECMA-262 `JSON.parse` grammar) -/

/-- JSON values.  Numbers keep their source text (no arithmetic is ever
performed on them); object member order is insertion order, with a
duplicate key updating the value in place as `JSON.parse` does. -/
inductive JsonVal where
  | str (s : List Char)
  | num (raw : List Char)
  | bool (b : Bool)
  | null
  | arr (xs : List JsonVal)
  | obj (fields : List (List Char × JsonVal))

instance : Inhabited JsonVal := ⟨JsonVal.null⟩

/-- JSON insignificant whitespace: tab, LF, CR, space. -/
def jsonWs (c : Char) : Bool := c = ' ' || c = '\t' || c = '\n' || c = '\r'

/-- Skip insignificant whitespace. -/
def skipJsonWs (l : List Char) : List Char := l.dropWhile jsonWs

/-- Hex digit test. -/
def isHexDigitChar (c : Char) : Bool :=
  c.isDigit || ('a' ≤ c && c ≤ 'f') || ('A' ≤ c && c ≤ 'F')

/-- Hex digit value. -/
def hexVal (c : Char) : Nat :=
  if c.isDigit then c.toNat - 48
  else if 97 ≤ c.toNat then c.toNat - 87
  else c.toNat - 55

/-- Parse a JSON string body (after the opening quote), decoding escapes;
returns the decoded content and the remainder after the closing quote.
(A `\u` escape denoting a lone surrogate decodes to `Char.ofNat`'s
default; no claim exercises surrogates.) -/
def jsonStringF : Nat → List Char → Option (List Char × List Char)
  | 0, _ => none
  | _ + 1, [] => none
  | fuel + 1, c :: cs =>
    if c = '"' then some ([], cs)
    else if c = '\\' then
      match cs with
      | [] => none
      | e :: cs2 =>
        let dec : Option (Char × List Char) :=
          if e = '"' then some ('"', cs2)
          else if e = '\\' then some ('\\', cs2)
          else if e = '/' then some ('/', cs2)
          else if e = 'b' then some (Char.ofNat 8, cs2)
          else if e = 'f' then some (Char.ofNat 12, cs2)
          else if e = 'n' then some ('\n', cs2)
          else if e = 'r' then some ('\r', cs2)
          else if e = 't' then some ('\t', cs2)
          else if e = 'u' then
            match cs2 with
            | h1 :: h2 :: h3 :: h4 :: cs3 =>
              if isHexDigitChar h1 && isHexDigitChar h2 && isHexDigitChar h3
                  && isHexDigitChar h4 then
                some (Char.ofNat (4096 * hexVal h1 + 256 * hexVal h2
                  + 16 * hexVal h3 + hexVal h4), cs3)
              else none
            | _ => none
          else none
        match dec with
        | some (d, rest) =>
          match jsonStringF fuel rest with
          | some (s, r) => some (d :: s, r)
          | none => none
        | none => none
    else if c.toNat < 32 then none
    else
      match jsonStringF fuel cs with
      | some (s, r) => some (c :: s, r)
      | none => none

/-- Parse the optional fraction and exponent of a JSON number; returns the
consumed text and the remainder. -/
def jsonFracExp (r1 : List Char) : Option (List Char × List Char) :=
  let fpart : Option (List Char × List Char) :=
    match r1 with
    | '.' :: t =>
      if t.takeWhile Char.isDigit = [] then none
      else some ('.' :: t.takeWhile Char.isDigit, t.dropWhile Char.isDigit)
    | _ => some ([], r1)
  match fpart with
  | none => none
  | some (fp, r2) =>
    match r2 with
    | e :: t =>
      if e = 'e' ∨ e = 'E' then
        let st : List Char × List Char :=
          match t with
          | '+' :: u => (['+'], u)
          | '-' :: u => (['-'], u)
          | _ => ([], t)
        if st.2.takeWhile Char.isDigit = [] then none
        else some (fp ++ e :: st.1 ++ st.2.takeWhile Char.isDigit,
          st.2.dropWhile Char.isDigit)
      else some (fp, r2)
    | [] => some (fp, r2)

/-- Parse a JSON number (leading `0` may not be followed by digits). -/
def jsonNumber (l : List Char) : Option (JsonVal × List Char) :=
  let ln : List Char × List Char :=
    match l with
    | '-' :: t => (t, ['-'])
    | _ => (l, [])
  match ln.1 with
  | [] => none
  | d :: tl =>
    if d.isDigit then
      let ipr : List Char × List Char :=
        if d = '0' then (['0'], tl)
        else (ln.1.takeWhile Char.isDigit, ln.1.dropWhile Char.isDigit)
      match jsonFracExp ipr.2 with
      | some (fe, r2) => some (JsonVal.num (ln.2 ++ ipr.1 ++ fe), r2)
      | none => none
    else none

/-- Insert an object member as `JSON.parse` does: a duplicate key updates
the value in place, a new key is appended. -/
def insertMember (acc : List (List Char × JsonVal)) (k : List Char)
    (v : JsonVal) : List (List Char × JsonVal) :=
  if acc.any (fun kv => kv.1 = k) then
    acc.map (fun kv => if kv.1 = k then (k, v) else kv)
  else acc ++ [(k, v)]

mutual

/-- Parse one JSON value at an already whitespace-skipped position. -/
def jsonValueF : Nat → List Char → Option (JsonVal × List Char)
  | 0, _ => none
  | fuel + 1, l =>
    match l with
    | [] => none
    | c :: cs =>
      if c = '"' then
        match jsonStringF (cs.length + 1) cs with
        | some (s, r) => some (JsonVal.str s, r)
        | none => none
      else if c = '{' then jsonObjectF fuel (skipJsonWs cs) true []
      else if c = '[' then jsonArrayF fuel (skipJsonWs cs) true []
      else if c = 't' then
        match cs with
        | 'r' :: 'u' :: 'e' :: r => some (JsonVal.bool true, r)
        | _ => none
      else if c = 'f' then
        match cs with
        | 'a' :: 'l' :: 's' :: 'e' :: r => some (JsonVal.bool false, r)
        | _ => none
      else if c = 'n' then
        match cs with
        | 'u' :: 'l' :: 'l' :: r => some (JsonVal.null, r)
        | _ => none
      else jsonNumber (c :: cs)

/-- Parse object members (after `{`, whitespace skipped); `first` tells
whether a closing `}` is still allowed (no trailing commas). -/
def jsonObjectF : Nat → List Char → Bool → List (List Char × JsonVal) →
    Option (JsonVal × List Char)
  | 0, _, _, _ => none
  | fuel + 1, l, first, acc =>
    match l with
    | '}' :: r => if first then some (JsonVal.obj acc, r) else none
    | '"' :: cs =>
      match jsonStringF (cs.length + 1) cs with
      | some (k, r1) =>
        match skipJsonWs r1 with
        | ':' :: r2 =>
          match jsonValueF fuel (skipJsonWs r2) with
          | some (v, r3) =>
            match skipJsonWs r3 with
            | ',' :: r4 => jsonObjectF fuel (skipJsonWs r4) false
                (insertMember acc k v)
            | '}' :: r4 => some (JsonVal.obj (insertMember acc k v), r4)
            | _ => none
          | none => none
        | _ => none
      | none => none
    | _ => none

/-- Parse array elements (after `[`, whitespace skipped). -/
def jsonArrayF : Nat → List Char → Bool → List JsonVal →
    Option (JsonVal × List Char)
  | 0, _, _, _ => none
  | fuel + 1, l, first, acc =>
    match l with
    | ']' :: r => if first then some (JsonVal.arr acc, r) else none
    | _ =>
      match jsonValueF fuel l with
      | some (v, r1) =>
        match skipJsonWs r1 with
        | ',' :: r2 => jsonArrayF fuel (skipJsonWs r2) false (acc ++ [v])
        | ']' :: r2 => some (JsonVal.arr (acc ++ [v]), r2)
        | _ => none
      | none => none

end

/-- `JSON.parse` as a total function: `some v` on success, `none` when the
source throws a `SyntaxError`. -/
def jsonParse (l : List Char) : Option JsonVal :=
  match jsonValueF (2 * l.length + 2) (skipJsonWs l) with
  | some (v, r) => if skipJsonWs r = [] then some v else none
  | none => none

/-- Already-valid JSON on which the repair pass is destructive: the value
string contains `,,}`, and pass 1 deletes a comma inside it. -/
def jsonRepairCe : List Char := "\x7b\"a\":\",,\x7d\"\x7d".toList

/-- C5 counterexample: `jsonRepairCe` is valid JSON, yet the repair pass
is not idempotent on it and changes the parsed structure (the value
`",,\x7d"` becomes `",\x7d"` after one repair and `"\x7d"` after two). -/
theorem fixCommonJSONIssues_breaks_valid_json :
    (jsonParse jsonRepairCe).isSome = true ∧
    fixCommonJSONIssues (fixCommonJSONIssues jsonRepairCe) ≠
      fixCommonJSONIssues jsonRepairCe ∧
    jsonParse (fixCommonJSONIssues jsonRepairCe) ≠ jsonParse jsonRepairCe := by
  refine ⟨rfl, ?_, ?_⟩
  · intro h
    have h1 : fixCommonJSONIssues (fixCommonJSONIssues jsonRepairCe) =
        "\x7b\"a\":\"\x7d\"\x7d".toList := rfl
    have h2 : fixCommonJSONIssues jsonRepairCe = "\x7b\"a\":\",\x7d\"\x7d".toList := rfl
    rw [h1, h2] at h
    exact absurd h (by decide)
  · intro h
    have h1 : jsonParse (fixCommonJSONIssues jsonRepairCe) =
        some (JsonVal.obj [("a".toList, JsonVal.str ",\x7d".toList)]) := rfl
    have h2 : jsonParse jsonRepairCe =
        some (JsonVal.obj [("a".toList, JsonVal.str ",,\x7d".toList)]) := rfl
    rw [h1, h2] at h
    simp at h

/-- Whether pass 5's pattern occurs in `l`. -/
def fixPass5Trigger : List Char → Bool
  | [] => false
  | c :: cs =>
    if c = ',' ∧ cs.all jsWhitespace then true else fixPass5Trigger cs

/-- If pass 5's pattern does not occur, pass 5 is the identity. -/
theorem fixPass5_eq_self (l : List Char) (h : fixPass5Trigger l = false) :
    fixPass5 l = l := by
  induction l with
  | nil => rfl
  | cons c cs ih =>
    unfold fixPass5
    unfold fixPass5Trigger at h
    by_cases hc : c = ',' ∧ cs.all jsWhitespace
    · rw [if_pos hc] at h
      exact absurd h (by simp)
    · rw [if_neg hc] at h ⊢
      rw [ih h]

/-- C5 (amended).  `fixCommonJSONIssues` is the identity — hence trivially
parse-preserving and idempotent — on any string in which none of its five
repair patterns occurs.  On valid JSON whose string literals do contain a
repair pattern (e.g. a comma before `}`), the pass rewrites inside the
literal and changes the parsed structure, as the counterexample shows. -/
theorem fixCommonJSONIssues_id_of_no_match (s : List Char)
    (h1 : regexTrigF pass1Match (s.length + 1) s = false)
    (h2 : regexTrigF pass2Match (s.length + 1) s = false)
    (h3 : regexTrigF pass3Match (s.length + 1) s = false)
    (h4 : regexTrigF pass4Match (s.length + 1) s = false)
    (h5 : fixPass5Trigger s = false) :
    fixCommonJSONIssues s = s ∧
    jsonParse (fixCommonJSONIssues s) = jsonParse s ∧
    fixCommonJSONIssues (fixCommonJSONIssues s) = fixCommonJSONIssues s := by
  have hfix : fixCommonJSONIssues s = s := by
    simp only [fixCommonJSONIssues]
    rw [regexScanF_eq_self _ _ _ h1]
    rw [regexScanF_eq_self _ _ _ h2]
    rw [regexScanF_eq_self _ _ _ h3]
    rw [regexScanF_eq_self _ _ _ h4]
    exact fixPass5_eq_self _ h5
  refine ⟨hfix, by rw [hfix], by rw [hfix, hfix]⟩

/-- A well-formed JSON text triggering none of the repair patterns. -/
def tidyJson : List Char := "\x7b\"a\": 1\x7d".toList

/-- Witness for C5 (amended): on `{"a": 1}` the repair pass is the
identity, parse-preserving and idempotent. -/
theorem fixCommonJSONIssues_id_witness :
    (regexTrigF pass1Match (tidyJson.length + 1) tidyJson = false ∧
      regexTrigF pass2Match (tidyJson.length + 1) tidyJson = false ∧
      regexTrigF pass3Match (tidyJson.length + 1) tidyJson = false ∧
      regexTrigF pass4Match (tidyJson.length + 1) tidyJson = false ∧
      fixPass5Trigger tidyJson = false) ∧
    (fixCommonJSONIssues tidyJson = tidyJson ∧
      jsonParse (fixCommonJSONIssues tidyJson) = jsonParse tidyJson ∧
      fixCommonJSONIssues (fixCommonJSONIssues tidyJson) =
        fixCommonJSONIssues tidyJson) :=
  ⟨⟨by decide, by decide, by decide, by decide, by decide⟩,
    fixCommonJSONIssues_id_of_no_match tidyJson (by decide) (by decide)
      (by decide) (by decide) (by decide)⟩

/-! ## `validateOutlineContent` (`src/lib/llm-utils.ts`) -/

/-- `String.prototype.toLowerCase` (ASCII; no claim uses non-ASCII). -/
def jsToLower (l : List Char) : List Char := l.map Char.toLower

/-- The placeholder denylist. -/
def placeholderTerms : List (List Char) :=
  ["string", "your title here", "title here", "section title",
   "description here", "add description", "insert", "example",
   "placeholder", "template", "sample", "todo", "tbd", "fill in"
  ].map String.toList

/-- The whitelisted duration strings. -/
def validDurations : List (List Char) :=
  ["3 minutes", "2-3 minutes", "12-15 minutes", "10-15 minutes"
  ].map String.toList

/-- `placeholderTerms.some(term => lowerValue.includes(term))`. -/
def hasPlaceholder (lower : List Char) : Bool :=
  placeholderTerms.any (fun t => jsIncludes lower t)

/-- `validDurations.some(dur => lowerValue.includes(dur.toLowerCase()))`. -/
def durationExempt (lower : List Char) : Bool :=
  validDurations.any (fun d => jsIncludes lower (jsToLower d))

/-- JavaScript truthiness of a property-access result (`none` is
`undefined`).  A JSON number is falsy exactly when its mantissa digits are
all zero. -/
def jsTruthy : Option JsonVal → Bool
  | none => false
  | some JsonVal.null => false
  | some (JsonVal.bool b) => b
  | some (JsonVal.str s) => !s.isEmpty
  | some (JsonVal.num raw) => !(raw.filter Char.isDigit).all (fun c => c = '0')
  | some (JsonVal.arr _) => true
  | some (JsonVal.obj _) => true

/-- Property access `v[k]` (`none` = `undefined`). -/
def jsGet (v : JsonVal) (k : List Char) : Option JsonVal :=
  match v with
  | JsonVal.obj fs =>
    match fs.find? (fun kv => kv.1 == k) with
    | some kv => some kv.2
    | none => none
  | _ => none

/-- `Object.entries` on a JSON value: own enumerable string-keyed entries
(insertion order for objects, index order for arrays and strings, empty
for primitives). -/
def jsEntries : JsonVal → List (List Char × JsonVal)
  | JsonVal.obj fs => fs
  | JsonVal.arr xs => xs.enum.map (fun p => ((Nat.repr p.1).toList, p.2))
  | JsonVal.str s => s.enum.map (fun p => ((Nat.repr p.1).toList, JsonVal.str [p.2]))
  | _ => []

/-- The distinct errors `validateOutlineContent` can throw, by source
`throw` site (indices are 0-based here; the messages use 1-based). -/
inductive ValError where
  | overviewField (key value : List Char)
  | sectionField (i : Nat) (key value : List Char)
  | sectionKeyPoint (i j : Nat) (point : List Char)
  | finalThoughtsField (key value : List Char)
  | finalTakeaway (j : Nat) (value : List Char)
deriving DecidableEq

/-- Walk the overview entries (minimum trimmed length 3 for every string
field, `totalDuration` exempt when whitelisted). -/
def checkOverviewEntries : List (List Char × JsonVal) → Except ValError Unit
  | [] => Except.ok ()
  | (k, v) :: rest =>
    match v with
    | JsonVal.str sv =>
      if k = "totalDuration".toList ∧ durationExempt (jsToLower sv) then
        checkOverviewEntries rest
      else if hasPlaceholder (jsToLower sv) ∨ (jsTrim sv).length < 3 then
        Except.error (ValError.overviewField k sv)
      else checkOverviewEntries rest
    | _ => checkOverviewEntries rest

/-- Per-key minimum trimmed length inside a section: id 3, title 8,
other string fields 5. -/
def sectionMinLen (k : List Char) : Nat :=
  if k = "id".toList then 3 else if k = "title".toList then 8 else 5

/-- Walk a section's key points (minimum trimmed length 8). -/
def checkKeyPoints (i : Nat) : Nat → List JsonVal → Except ValError Unit
  | _, [] => Except.ok ()
  | j, p :: rest =>
    match p with
    | JsonVal.str sv =>
      if hasPlaceholder (jsToLower sv) ∨ (jsTrim sv).length < 8 then
        Except.error (ValError.sectionKeyPoint i j sv)
      else checkKeyPoints i (j + 1) rest
    | _ => checkKeyPoints i (j + 1) rest

/-- Walk one section's entries. -/
def checkSectionEntries (i : Nat) :
    List (List Char × JsonVal) → Except ValError Unit
  | [] => Except.ok ()
  | (k, v) :: rest =>
    match v with
    | JsonVal.str sv =>
      if k = "duration".toList ∧ durationExempt (jsToLower sv) then
        checkSectionEntries i rest
      else if hasPlaceholder (jsToLower sv) ∨
          (jsTrim sv).length < sectionMinLen k then
        Except.error (ValError.sectionField i k sv)
      else checkSectionEntries i rest
    | JsonVal.arr xs =>
      if k = "keyPoints".toList then
        match checkKeyPoints i 0 xs with
        | Except.ok _ => checkSectionEntries i rest
        | Except.error e => Except.error e
      else checkSectionEntries i rest
    | _ => checkSectionEntries i rest

/-- Walk all sections. -/
def checkSections : Nat → List JsonVal → Except ValError Unit
  | _, [] => Except.ok ()
  | i, s :: rest =>
    match checkSectionEntries i (jsEntries s) with
    | Except.ok _ => checkSections (i + 1) rest
    | Except.error e => Except.error e

/-- Walk the final-thoughts key takeaways (minimum trimmed length 8). -/
def checkTakeaways : Nat → List JsonVal → Except ValError Unit
  | _, [] => Except.ok ()
  | j, p :: rest =>
    match p with
    | JsonVal.str sv =>
      if hasPlaceholder (jsToLower sv) ∨ (jsTrim sv).length < 8 then
        Except.error (ValError.finalTakeaway j sv)
      else checkTakeaways (j + 1) rest
    | _ => checkTakeaways (j + 1) rest

/-- Walk the final-thoughts entries (minimum trimmed length 3 for string
fields, `duration` exempt when whitelisted, `keyTakeaways` arrays). -/
def checkFinalEntries : List (List Char × JsonVal) → Except ValError Unit
  | [] => Except.ok ()
  | (k, v) :: rest =>
    match v with
    | JsonVal.str sv =>
      if k = "duration".toList ∧ durationExempt (jsToLower sv) then
        checkFinalEntries rest
      else if hasPlaceholder (jsToLower sv) ∨ (jsTrim sv).length < 3 then
        Except.error (ValError.finalThoughtsField k sv)
      else checkFinalEntries rest
    | JsonVal.arr xs =>
      if k = "keyTakeaways".toList then
        match checkTakeaways 0 xs with
        | Except.ok _ => checkFinalEntries rest
        | Except.error e => Except.error e
      else checkFinalEntries rest
    | _ => checkFinalEntries rest

/-- The overview walk of `validateOutlineContent` (`if (outline.overview)`). -/
def overviewStep (outline : JsonVal) : Except ValError Unit :=
  match jsGet outline "overview".toList with
  | some ov =>
    if jsTruthy (some ov) then checkOverviewEntries (jsEntries ov)
    else Except.ok ()
  | none => Except.ok ()

/-- The sections walk (`if (outline.sections && Array.isArray(...))`). -/
def sectionsStep (outline : JsonVal) : Except ValError Unit :=
  match jsGet outline "sections".toList with
  | some (JsonVal.arr xs) => checkSections 0 xs
  | _ => Except.ok ()

/-- The final-thoughts walk (`if (outline.finalThoughts)`). -/
def finalStep (outline : JsonVal) : Except ValError Unit :=
  match jsGet outline "finalThoughts".toList with
  | some ft =>
    if jsTruthy (some ft) then checkFinalEntries (jsEntries ft)
    else Except.ok ()
  | none => Except.ok ()

/-- `validateOutlineContent` from `src/lib/llm-utils.ts`: walk `overview`
(when truthy), `sections` (when a truthy array) and `finalThoughts` (when
truthy), throwing on the first violation; returns `true` otherwise. -/
def validateOutlineContent (outline : JsonVal) : Except ValError Bool :=
  match overviewStep outline with
  | Except.error e => Except.error e
  | Except.ok _ =>
    match sectionsStep outline with
    | Except.error e => Except.error e
    | Except.ok _ =>
      match finalStep outline with
      | Except.error e => Except.error e
      | Except.ok _ => Except.ok true

/-- One string leaf passes the (amended) spec rule: either the field is a
whitelisted duration, or it avoids the denylist and meets the minimum
trimmed length. -/
def specFieldOk (isDurationKey : Bool) (minLen : Nat) (sv : List Char) : Bool :=
  (isDurationKey && durationExempt (jsToLower sv)) ||
  (!hasPlaceholder (jsToLower sv) && decide (minLen ≤ (jsTrim sv).length))

/-- Spec rule for a key point / takeaway entry (strings only, min 8). -/
def specPointOk (p : JsonVal) : Bool :=
  match p with
  | JsonVal.str sv => specFieldOk false 8 sv
  | _ => true

/-- Spec rule for the overview: every string field min 3,
`totalDuration` exemptable. -/
def specOverviewOk (ov : JsonVal) : Bool :=
  (jsEntries ov).all fun kv =>
    match kv.2 with
    | JsonVal.str sv => specFieldOk (kv.1 == "totalDuration".toList) 3 sv
    | _ => true

/-- Spec rule for one section: id min 3, title min 8, other string fields
min 5, `duration` exemptable, `keyPoints` entries min 8. -/
def specSectionOk (s : JsonVal) : Bool :=
  (jsEntries s).all fun kv =>
    match kv.2 with
    | JsonVal.str sv =>
      specFieldOk (kv.1 == "duration".toList) (sectionMinLen kv.1) sv
    | JsonVal.arr ps =>
      if kv.1 == "keyPoints".toList then ps.all specPointOk else true
    | _ => true

/-- Spec rule for the final thoughts: every string field min 3,
`duration` exemptable, `keyTakeaways` entries min 8. -/
def specFinalOk (ft : JsonVal) : Bool :=
  (jsEntries ft).all fun kv =>
    match kv.2 with
    | JsonVal.str sv => specFieldOk (kv.1 == "duration".toList) 3 sv
    | JsonVal.arr ps =>
      if kv.1 == "keyTakeaways".toList then ps.all specPointOk else true
    | _ => true

/-- The whole outline passes the (amended) spec rule. -/
def specOutlineOk (outline : JsonVal) : Bool :=
  (match jsGet outline "overview".toList with
   | some ov => if jsTruthy (some ov) then specOverviewOk ov else true
   | none => true) &&
  ((match jsGet outline "sections".toList with
    | some (JsonVal.arr xs) => xs.all specSectionOk
    | _ => true) &&
   (match jsGet outline "finalThoughts".toList with
    | some ft => if jsTruthy (some ft) then specFinalOk ft else true
    | none => true))

theorem specFieldOk_false (isDk : Bool) (minLen : Nat) (sv : List Char)
    (hex : ¬(isDk = true ∧ durationExempt (jsToLower sv) = true))
    (hviol : hasPlaceholder (jsToLower sv) = true ∨
      (jsTrim sv).length < minLen) :
    specFieldOk isDk minLen sv = false := by
  unfold specFieldOk
  rw [Bool.or_eq_false_iff, Bool.and_eq_false_iff, Bool.and_eq_false_iff]
  constructor
  · by_cases h1 : isDk = true
    · right
      by_cases h2 : durationExempt (jsToLower sv) = true
      · exact absurd ⟨h1, h2⟩ hex
      · simpa using h2
    · left
      simpa using h1
  · rcases hviol with h | h
    · left
      simp [h]
    · right
      simpa using h

theorem specFieldOk_true_of_exempt (isDk : Bool) (minLen : Nat)
    (sv : List Char) (h1 : isDk = true)
    (h2 : durationExempt (jsToLower sv) = true) :
    specFieldOk isDk minLen sv = true := by
  unfold specFieldOk
  rw [h1, h2]
  rfl

theorem specFieldOk_true_of_sound (isDk : Bool) (minLen : Nat)
    (sv : List Char)
    (hviol : ¬(hasPlaceholder (jsToLower sv) = true ∨
      (jsTrim sv).length < minLen)) :
    specFieldOk isDk minLen sv = true := by
  unfold specFieldOk
  push_neg at hviol
  rw [Bool.eq_false_iff.mpr hviol.1]
  simp [Nat.le_of_not_lt (by simpa using hviol.2)]

theorem checkOverviewEntries_isOk (es : List (List Char × JsonVal)) :
    (checkOverviewEntries es).isOk =
      es.all (fun kv =>
        match kv.2 with
        | JsonVal.str sv => specFieldOk (kv.1 == "totalDuration".toList) 3 sv
        | _ => true) := by
  induction es with
  | nil => rfl
  | cons kv rest ih =>
    obtain ⟨k, v⟩ := kv
    rw [List.all_cons]
    cases v with
    | str sv =>
      unfold checkOverviewEntries
      dsimp only
      by_cases hex : k = "totalDuration".toList ∧
          durationExempt (jsToLower sv) = true
      · rw [if_pos hex, ih,
          specFieldOk_true_of_exempt _ _ _ (by simp [hex.1]) hex.2,
          Bool.true_and]
      · rw [if_neg hex]
        by_cases hviol : hasPlaceholder (jsToLower sv) = true ∨
            (jsTrim sv).length < 3
        · rw [if_pos hviol,
            specFieldOk_false _ _ _ (by simpa [beq_iff_eq] using hex) hviol]
          rfl
        · rw [if_neg hviol, ih,
            specFieldOk_true_of_sound _ _ _ hviol, Bool.true_and]
    | num r => simp [checkOverviewEntries, ih]
    | bool b => simp [checkOverviewEntries, ih]
    | null => simp [checkOverviewEntries, ih]
    | arr xs => simp [checkOverviewEntries, ih]
    | obj fs => simp [checkOverviewEntries, ih]

theorem checkKeyPoints_isOk (i : Nat) (ps : List JsonVal) : ∀ (j : Nat),
    (checkKeyPoints i j ps).isOk = ps.all specPointOk := by
  induction ps with
  | nil => intro j; rfl
  | cons p rest ih =>
    intro j
    rw [List.all_cons]
    cases p with
    | str sv =>
      unfold checkKeyPoints
      dsimp only
      have hspec : specPointOk (JsonVal.str sv) = specFieldOk false 8 sv := rfl
      by_cases hviol : hasPlaceholder (jsToLower sv) = true ∨
          (jsTrim sv).length < 8
      · rw [if_pos hviol, hspec,
          specFieldOk_false _ _ _ (by simp) hviol]
        rfl
      · rw [if_neg hviol, ih, hspec,
          specFieldOk_true_of_sound _ _ _ hviol, Bool.true_and]
    | num r => simp [checkKeyPoints, ih, specPointOk]
    | bool b => simp [checkKeyPoints, ih, specPointOk]
    | null => simp [checkKeyPoints, ih, specPointOk]
    | arr xs => simp [checkKeyPoints, ih, specPointOk]
    | obj fs => simp [checkKeyPoints, ih, specPointOk]

theorem checkSectionEntries_isOk (i : Nat)
    (es : List (List Char × JsonVal)) :
    (checkSectionEntries i es).isOk =
      es.all (fun kv =>
        match kv.2 with
        | JsonVal.str sv =>
          specFieldOk (kv.1 == "duration".toList) (sectionMinLen kv.1) sv
        | JsonVal.arr ps =>
          if kv.1 == "keyPoints".toList then ps.all specPointOk else true
        | _ => true) := by
  induction es with
  | nil => rfl
  | cons kv rest ih =>
    obtain ⟨k, v⟩ := kv
    rw [List.all_cons]
    cases v with
    | str sv =>
      unfold checkSectionEntries
      dsimp only
      by_cases hex : k = "duration".toList ∧
          durationExempt (jsToLower sv) = true
      · rw [if_pos hex, ih,
          specFieldOk_true_of_exempt _ _ _ (by simp [hex.1]) hex.2,
          Bool.true_and]
      · rw [if_neg hex]
        by_cases hviol : hasPlaceholder (jsToLower sv) = true ∨
            (jsTrim sv).length < sectionMinLen k
        · rw [if_pos hviol,
            specFieldOk_false _ _ _ (by simpa [beq_iff_eq] using hex) hviol]
          rfl
        · rw [if_neg hviol, ih,
            specFieldOk_true_of_sound _ _ _ hviol, Bool.true_and]
    | arr ps =>
      unfold checkSectionEntries
      dsimp only
      by_cases hk : k = "keyPoints".toList
      · rw [if_pos hk, if_pos (by simp [hk] : (k == "keyPoints".toList) = true)]
        cases hkp : checkKeyPoints i 0 ps with
        | ok u =>
          have h : ps.all specPointOk = true := by
            rw [← checkKeyPoints_isOk i ps 0, hkp]
            rfl
          dsimp only
          rw [ih, h, Bool.true_and]
        | error e =>
          have h : ps.all specPointOk = false := by
            rw [← checkKeyPoints_isOk i ps 0, hkp]
            rfl
          dsimp only
          rw [h, Bool.false_and]
          rfl
      · rw [if_neg hk,
          if_neg (by simpa using hk : ¬(k == "keyPoints".toList) = true), ih,
          Bool.true_and]
    | num r => simp [checkSectionEntries, ih]
    | bool b => simp [checkSectionEntries, ih]
    | null => simp [checkSectionEntries, ih]
    | obj fs => simp [checkSectionEntries, ih]

theorem checkSections_isOk (xs : List JsonVal) : ∀ (i : Nat),
    (checkSections i xs).isOk = xs.all specSectionOk := by
  induction xs with
  | nil => intro i; rfl
  | cons s rest ih =>
    intro i
    rw [List.all_cons]
    unfold checkSections
    cases hse : checkSectionEntries i (jsEntries s) with
    | ok u =>
      have h : specSectionOk s = true := by
        unfold specSectionOk
        rw [← checkSectionEntries_isOk i (jsEntries s), hse]
        rfl
      dsimp only
      rw [ih, h, Bool.true_and]
    | error e =>
      have h : specSectionOk s = false := by
        unfold specSectionOk
        rw [← checkSectionEntries_isOk i (jsEntries s), hse]
        rfl
      dsimp only
      rw [h, Bool.false_and]
      rfl

theorem checkTakeaways_isOk (ps : List JsonVal) : ∀ (j : Nat),
    (checkTakeaways j ps).isOk = ps.all specPointOk := by
  induction ps with
  | nil => intro j; rfl
  | cons p rest ih =>
    intro j
    rw [List.all_cons]
    cases p with
    | str sv =>
      unfold checkTakeaways
      dsimp only
      have hspec : specPointOk (JsonVal.str sv) = specFieldOk false 8 sv := rfl
      by_cases hviol : hasPlaceholder (jsToLower sv) = true ∨
          (jsTrim sv).length < 8
      · rw [if_pos hviol, hspec, specFieldOk_false _ _ _ (by simp) hviol]
        rfl
      · rw [if_neg hviol, ih, hspec,
          specFieldOk_true_of_sound _ _ _ hviol, Bool.true_and]
    | num r => simp [checkTakeaways, ih, specPointOk]
    | bool b => simp [checkTakeaways, ih, specPointOk]
    | null => simp [checkTakeaways, ih, specPointOk]
    | arr xs => simp [checkTakeaways, ih, specPointOk]
    | obj fs => simp [checkTakeaways, ih, specPointOk]

theorem checkFinalEntries_isOk (es : List (List Char × JsonVal)) :
    (checkFinalEntries es).isOk =
      es.all (fun kv =>
        match kv.2 with
        | JsonVal.str sv => specFieldOk (kv.1 == "duration".toList) 3 sv
        | JsonVal.arr ps =>
          if kv.1 == "keyTakeaways".toList then ps.all specPointOk else true
        | _ => true) := by
  induction es with
  | nil => rfl
  | cons kv rest ih =>
    obtain ⟨k, v⟩ := kv
    rw [List.all_cons]
    cases v with
    | str sv =>
      unfold checkFinalEntries
      dsimp only
      by_cases hex : k = "duration".toList ∧
          durationExempt (jsToLower sv) = true
      · rw [if_pos hex, ih,
          specFieldOk_true_of_exempt _ _ _ (by simp [hex.1]) hex.2,
          Bool.true_and]
      · rw [if_neg hex]
        by_cases hviol : hasPlaceholder (jsToLower sv) = true ∨
            (jsTrim sv).length < 3
        · rw [if_pos hviol,
            specFieldOk_false _ _ _ (by simpa [beq_iff_eq] using hex) hviol]
          rfl
        · rw [if_neg hviol, ih,
            specFieldOk_true_of_sound _ _ _ hviol, Bool.true_and]
    | arr ps =>
      unfold checkFinalEntries
      dsimp only
      by_cases hk : k = "keyTakeaways".toList
      · rw [if_pos hk,
          if_pos (by simp [hk] : (k == "keyTakeaways".toList) = true)]
        cases hkp : checkTakeaways 0 ps with
        | ok u =>
          have h : ps.all specPointOk = true := by
            rw [← checkTakeaways_isOk ps 0, hkp]
            rfl
          dsimp only
          rw [ih, h, Bool.true_and]
        | error e =>
          have h : ps.all specPointOk = false := by
            rw [← checkTakeaways_isOk ps 0, hkp]
            rfl
          dsimp only
          rw [h, Bool.false_and]
          rfl
      · rw [if_neg hk,
          if_neg (by simpa using hk : ¬(k == "keyTakeaways".toList) = true),
          ih, Bool.true_and]
    | num r => simp [checkFinalEntries, ih]
    | bool b => simp [checkFinalEntries, ih]
    | null => simp [checkFinalEntries, ih]
    | obj fs => simp [checkFinalEntries, ih]

theorem seq3_isOk (A B C : Except ValError Unit) :
    (match A with
     | Except.error e => Except.error e
     | Except.ok _ =>
       match B with
       | Except.error e => Except.error e
       | Except.ok _ =>
         match C with
         | Except.error e => Except.error e
         | Except.ok _ => (Except.ok true : Except ValError Bool)).isOk
    = (A.isOk && (B.isOk && C.isOk)) := by
  cases A <;> cases B <;> cases C <;> rfl

theorem overviewStep_isOk (outline : JsonVal) :
    (overviewStep outline).isOk =
      (match jsGet outline "overview".toList with
       | some ov => if jsTruthy (some ov) then specOverviewOk ov else true
       | none => true) := by
  unfold overviewStep
  cases jsGet outline "overview".toList with
  | none => rfl
  | some ov =>
    dsimp only
    by_cases ht : jsTruthy (some ov) = true
    · rw [if_pos ht, if_pos ht]
      exact checkOverviewEntries_isOk _
    · rw [if_neg ht, if_neg ht]
      rfl

theorem sectionsStep_isOk (outline : JsonVal) :
    (sectionsStep outline).isOk =
      (match jsGet outline "sections".toList with
       | some (JsonVal.arr xs) => xs.all specSectionOk
       | _ => true) := by
  unfold sectionsStep
  cases jsGet outline "sections".toList with
  | none => rfl
  | some v =>
    cases v with
    | arr xs => exact checkSections_isOk xs 0
    | str s => rfl
    | num r => rfl
    | bool b => rfl
    | null => rfl
    | obj fs => rfl

theorem finalStep_isOk (outline : JsonVal) :
    (finalStep outline).isOk =
      (match jsGet outline "finalThoughts".toList with
       | some ft => if jsTruthy (some ft) then specFinalOk ft else true
       | none => true) := by
  unfold finalStep
  cases jsGet outline "finalThoughts".toList with
  | none => rfl
  | some ft =>
    dsimp only
    by_cases ht : jsTruthy (some ft) = true
    · rw [if_pos ht, if_pos ht]
      exact checkFinalEntries_isOk _
    · rw [if_neg ht, if_neg ht]
      rfl

/-- C6 (amended).  `validateOutlineContent` accepts an outline exactly
when every walked string leaf passes the denylist and minimum-length
rules with minimum 3 for all `overview` and `finalThoughts` string
fields, 3/8/5 for a section's `id`/`title`/other string fields, and 8 for
`keyPoints` and `keyTakeaways` entries, with whitelisted-duration
exemptions on `overview.totalDuration` and the `duration` fields; on the
first violating leaf it throws (the error value identifies that leaf). -/
theorem validateOutlineContent_isOk_iff_spec (outline : JsonVal) :
    (validateOutlineContent outline).isOk = specOutlineOk outline := by
  have h := seq3_isOk (overviewStep outline) (sectionsStep outline)
    (finalStep outline)
  refine Eq.trans h ?_
  rw [overviewStep_isOk, sectionsStep_isOk, finalStep_isOk]
  rfl

/-- An outline whose `overview.title` is `"Okay"` (trimmed length 4). -/
def shortTitleOutline : JsonVal :=
  JsonVal.obj [("overview".toList,
    JsonVal.obj [("title".toList, JsonVal.str "Okay".toList)])]

/-- C6 counterexample: the claim's minimums (8 for a title, or 5 for a
generic string field) would reject a 4-character overview title, but the
code applies minimum 3 to every overview field and accepts it. -/
theorem validateOutlineContent_overview_title_min3 :
    validateOutlineContent shortTitleOutline = Except.ok true ∧
    (jsTrim "Okay".toList).length = 4 ∧
    hasPlaceholder (jsToLower "Okay".toList) = false :=
  ⟨rfl, by decide, by decide⟩

/-! ## `parseJSONFromResponse` (`src/lib/llm-utils.ts`) -/

/-- `typeof parsed === 'object' && parsed !== null`. -/
def isObjectNotNull : JsonVal → Bool
  | JsonVal.obj _ => true
  | JsonVal.arr _ => true
  | _ => false

/-- `obj.overview || obj.sections || obj.finalThoughts` (truthiness). -/
def outlineLike (v : JsonVal) : Bool :=
  jsTruthy (jsGet v "overview".toList) ||
  jsTruthy (jsGet v "sections".toList) ||
  jsTruthy (jsGet v "finalThoughts".toList)

/-- The distinguishable failures of `parseJSONFromResponse` (the source
raises `Error`s whose messages these categorize: the too-short guard, a
content-validation failure, and the parse-failure family whose message
wording varies with the underlying `SyntaxError`). -/
inductive ParseErr where
  | tooShort
  | validationFailed (e : ValError)
  | parseFailed
deriving DecidableEq

/-- One parse-and-validate attempt: `JSON.parse` then, when requested and
outline-like, `validateOutlineContent`; the error side separates
validation errors from syntax errors. -/
def parseAttempt (validateContent : Bool) (text : List Char) :
    Except (ValError ⊕ Unit) JsonVal :=
  match jsonParse text with
  | none => Except.error (Sum.inr ())
  | some parsed =>
    if validateContent && isObjectNotNull parsed && outlineLike parsed then
      match validateOutlineContent parsed with
      | Except.ok _ => Except.ok parsed
      | Except.error e => Except.error (Sum.inl e)
    else Except.ok parsed

/-- `parseJSONFromResponse` from `src/lib/llm-utils.ts`: sanitize, guard
against short output, parse-and-validate, and on failure repair with
`fixCommonJSONIssues` and retry once; a second failure is reported by the
category of the *first* error. -/
def parseJSONFromResponse (response : List Char)
    (validateContent : Bool := true) : Except ParseErr JsonVal :=
  let cleanJson := cleanResponseForJSON response
  if cleanJson.length < 10 then Except.error ParseErr.tooShort
  else
    match parseAttempt validateContent cleanJson with
    | Except.ok v => Except.ok v
    | Except.error firstErr =>
      match parseAttempt validateContent (fixCommonJSONIssues cleanJson) with
      | Except.ok v => Except.ok v
      | Except.error _ =>
        match firstErr with
        | Sum.inl e => Except.error (ParseErr.validationFailed e)
        | Sum.inr _ => Except.error ParseErr.parseFailed

/-- C10.  Whenever the sanitized response is shorter than 10 characters,
`parseJSONFromResponse` raises the too-short error without attempting to
parse — even when the sanitized text is itself valid JSON; the
parse-then-repair-then-retry path is only reachable at length ≥ 10. -/
theorem parseJSONFromResponse_short_guard (response : List Char) (vc : Bool)
    (h : (cleanResponseForJSON response).length < 10) :
    parseJSONFromResponse response vc = Except.error ParseErr.tooShort := by
  unfold parseJSONFromResponse
  rw [if_pos h]

/-- Witness for C10: `{"a":1}` is 7 characters of valid JSON, yet the
guard rejects it before parsing. -/
theorem parseJSONFromResponse_short_guard_witness :
    (cleanResponseForJSON "\x7b\"a\":1\x7d".toList).length < 10 ∧
    (jsonParse (cleanResponseForJSON "\x7b\"a\":1\x7d".toList)).isSome = true ∧
    parseJSONFromResponse "\x7b\"a\":1\x7d".toList true =
      Except.error ParseErr.tooShort :=
  ⟨by decide, by decide,
    parseJSONFromResponse_short_guard "\x7b\"a\":1\x7d".toList true (by decide)⟩

/-! ## Web search client (`src/lib/search.ts`) and the research stage
(`PodcastGenerator.enrichWithWebSearch`) -/

/-- Search-client failures: the eager configuration error thrown by
`getTavilyClient`, or a failure of the network call itself. -/
inductive SearchErr where
  | notConfigured
  | network
deriving DecidableEq

/-- One normalized search result. -/
structure SearchRes where
  title : List Char
  url : List Char
  content : List Char
  score : Int
deriving DecidableEq

/-- One query's normalized response (`SearchResponse` in the source). -/
structure SearchResponse where
  query : List Char
  results : List SearchRes
  images : List (List Char × List Char)
  answer : Option (List Char)
deriving DecidableEq

/-- `getTavilyClient`: raises the distinguishable "not configured" error
when the API key is unset. -/
def getTavilyClient (apiKeySet : Bool) : Except SearchErr Unit :=
  if apiKeySet then Except.ok () else Except.error SearchErr.notConfigured

/-- `searchWeb`: resolve the client, then perform the external call
(modelled by the oracle `net`); the source's catch merely logs and
rethrows. -/
def searchWeb (apiKeySet : Bool)
    (net : List Char → Except SearchErr SearchResponse)
    (query : List Char) : Except SearchErr SearchResponse :=
  match getTavilyClient apiKeySet with
  | Except.error e => Except.error e
  | Except.ok _ => net query

/-- A section of the outline (`PodcastSection` in the source); the
optional fields are absent (`none`) until a pipeline stage attaches them. -/
structure PodcastSection where
  id : List Char
  title : List Char
  description : List Char
  duration : List Char
  keyPoints : List (List Char)
  script : Option (List Char) := none
  searchContext : Option (List SearchResponse) := none
deriving DecidableEq

/-- The outline overview. -/
structure OverviewInfo where
  title : List Char
  description : List Char
  totalDuration : List Char
  targetAudience : List Char
  tone : List Char
deriving DecidableEq

/-- The closing block (`finalThoughts`). -/
structure FinalThoughtsInfo where
  title : List Char
  description : List Char
  duration : List Char
  keyTakeaways : List (List Char)
  script : Option (List Char) := none
deriving DecidableEq

/-- The planning artifact (`PodcastOutline` in the source). -/
structure PodcastOutline where
  overview : OverviewInfo
  sections : List PodcastSection
  finalThoughts : FinalThoughtsInfo
deriving DecidableEq

/-- The two queries built for section `i`:
`` `${section.title} ${searchQueries[0] || ""}` `` and
`searchQueries[i % searchQueries.length] || section.title` (an undefined
or empty pick falls back to the title). -/
def sectionQueries (queries : List (List Char)) (i : Nat)
    (s : PodcastSection) : List (List Char) :=
  [s.title ++ ' ' :: queries.headD [],
   match queries.get? (i % queries.length) with
   | some q => if q.isEmpty then s.title else q
   | none => s.title]

/-- Per-section enrichment: run both queries, keep the successful
responses (a failed search is logged and skipped), and attach them. -/
def enrichSection (apiKeySet : Bool)
    (net : List Char → Except SearchErr SearchResponse)
    (queries : List (List Char)) (i : Nat) (s : PodcastSection) :
    PodcastSection :=
  let results := (sectionQueries queries i s).foldl
    (fun acc q =>
      match searchWeb apiKeySet net q with
      | Except.ok r => acc ++ [r]
      | Except.error _ => acc) []
  { s with searchContext := some results }

/-- `PodcastGenerator.enrichWithWebSearch`: enrich every section in
order.  `queries` stands for the result of the pure, non-throwing
`generateSearchQueries`; all remaining operations are total, so the
source's outer catch (which would return the outline unmodified) is
unreachable and the stage never aborts the pipeline. -/
def enrichWithWebSearch (apiKeySet : Bool)
    (net : List Char → Except SearchErr SearchResponse)
    (outline : PodcastOutline) (queries : List (List Char)) :
    PodcastOutline :=
  { outline with
    sections := outline.sections.enum.map
      (fun p => enrichSection apiKeySet net queries p.1 p.2) }

/-- With the API key unset, every search fails with the configuration
error, so each section is enriched with an *empty* `searchContext`. -/
theorem enrichSection_unconfigured
    (net : List Char → Except SearchErr SearchResponse)
    (queries : List (List Char)) (i : Nat) (s : PodcastSection) :
    enrichSection false net queries i s =
      { s with searchContext := some [] } := by
  unfold enrichSection sectionQueries
  rfl

/-- C7 (amended).  With no API key, `searchWeb` raises the
distinguishable "not configured" error for every query, and
`enrichWithWebSearch` still completes, returning the outline with every
section carrying an attached *empty* `searchContext` array (not an absent
field). -/
theorem enrichWithWebSearch_unconfigured
    (net : List Char → Except SearchErr SearchResponse)
    (outline : PodcastOutline) (queries : List (List Char)) :
    (∀ q, searchWeb false net q = Except.error SearchErr.notConfigured) ∧
    (enrichWithWebSearch false net outline queries).overview =
      outline.overview ∧
    (enrichWithWebSearch false net outline queries).finalThoughts =
      outline.finalThoughts ∧
    (enrichWithWebSearch false net outline queries).sections =
      outline.sections.map (fun s => { s with searchContext := some [] }) := by
  refine ⟨fun q => rfl, rfl, rfl, ?_⟩
  show outline.sections.enum.map
      (fun p => enrichSection false net queries p.1 p.2) = _
  have h1 : outline.sections.enum.map
      (fun p => enrichSection false net queries p.1 p.2) =
      outline.sections.enum.map
        ((fun s => { s with searchContext := some [] }) ∘ Prod.snd) := by
    simp only [enrichSection_unconfigured]
    rfl
  rw [h1, ← List.map_map, List.enum_map_snd]

/-- A concrete one-section outline for the C7 counterexample. -/
def tinyOutline : PodcastOutline :=
  { overview :=
    { title := "Solar power trends".toList
      description := "An overview of solar adoption".toList
      totalDuration := "12-15 minutes".toList
      targetAudience := "General listeners".toList
      tone := "Conversational".toList }
    sections :=
      [{ id := "section_1".toList
         title := "Rooftop adoption".toList
         description := "How rooftop solar spread".toList
         duration := "3 minutes".toList
         keyPoints := ["Costs fell sharply over a decade".toList] }]
    finalThoughts :=
      { title := "Closing reflections".toList
        description := "What to take away".toList
        duration := "2-3 minutes".toList
        keyTakeaways := ["Solar keeps getting cheaper".toList] } }

/-- C7 counterexample: after an unconfigured research stage the section's
`searchContext` is `some []` — an attached empty array — not the absent
field the claim describes. -/
theorem enrichWithWebSearch_attaches_empty_context :
    ((enrichWithWebSearch false (fun _ => Except.error SearchErr.network)
        tinyOutline ["solar".toList]).sections.map
      (fun s => s.searchContext)) = [some []] ∧
    (some ([] : List SearchResponse) ≠ none) :=
  ⟨rfl, by simp⟩

/-! ## The generation pipeline (`PodcastGenerator.generatePodcastScript`
and `createFinalScript`) -/

/-- The five pipeline stages. -/
inductive Stage where
  | outline
  | search
  | script
  | combining
  | finalizing
deriving DecidableEq

/-- A progress event (`GenerationProgress` in the source).  The
human-readable `step` text is UI-only and carried by no claim, so it is
not modelled. -/
structure GenProg where
  stage : Stage
  progress : Nat
  currentSection : Option (List Char) := none
  result : Option (List Char) := none
  error : Option (List Char) := none
deriving DecidableEq

/-- Minimal JSON string escaping (quote, backslash and the common control
characters; no claim inspects the produced text). -/
def jsonEscape (s : List Char) : List Char :=
  s.flatMap fun c =>
    if c = '"' then ['\\', '"']
    else if c = '\\' then ['\\', '\\']
    else if c = '\n' then ['\\', 'n']
    else if c = '\r' then ['\\', 'r']
    else if c = '\t' then ['\\', 't']
    else [c]

/-- `JSON.stringify`, fuelled by nesting depth (the pretty-printing
indentation of `JSON.stringify(v, null, 2)` is elided; no claim inspects
the produced text). -/
def jsonStringifyF : Nat → JsonVal → List Char
  | 0, _ => []
  | _ + 1, JsonVal.str s => '"' :: jsonEscape s ++ ['"']
  | _ + 1, JsonVal.num raw => raw
  | _ + 1, JsonVal.bool true => "true".toList
  | _ + 1, JsonVal.bool false => "false".toList
  | _ + 1, JsonVal.null => "null".toList
  | fuel + 1, JsonVal.arr xs =>
    '[' :: List.intercalate [','] (xs.map (jsonStringifyF fuel)) ++ [']']
  | fuel + 1, JsonVal.obj fs =>
    '{' :: List.intercalate [',']
      (fs.map fun kv =>
        '"' :: jsonEscape kv.1 ++ '"' :: ':' :: jsonStringifyF fuel kv.2)
      ++ ['}']

/-- Encode one search result as JSON. -/
def searchResToJson (r : SearchRes) : JsonVal :=
  JsonVal.obj [("title".toList, JsonVal.str r.title),
    ("url".toList, JsonVal.str r.url),
    ("content".toList, JsonVal.str r.content),
    ("score".toList, JsonVal.num (Int.repr r.score).toList)]

/-- Encode one search response as JSON. -/
def searchResponseToJson (r : SearchResponse) : JsonVal :=
  JsonVal.obj ([("query".toList, JsonVal.str r.query),
    ("results".toList, JsonVal.arr (r.results.map searchResToJson)),
    ("images".toList, JsonVal.arr (r.images.map fun im =>
      JsonVal.obj [("url".toList, JsonVal.str im.1),
        ("description".toList, JsonVal.str im.2)]))] ++
    (match r.answer with
     | some a => [("answer".toList, JsonVal.str a)]
     | none => []))

/-- Encode a section as JSON (optional fields appear only when present,
as `JSON.stringify` skips `undefined`). -/
def sectionToJson (s : PodcastSection) : JsonVal :=
  JsonVal.obj ([("id".toList, JsonVal.str s.id),
    ("title".toList, JsonVal.str s.title),
    ("description".toList, JsonVal.str s.description),
    ("duration".toList, JsonVal.str s.duration),
    ("keyPoints".toList, JsonVal.arr (s.keyPoints.map JsonVal.str))] ++
    (match s.script with
     | some sc => [("script".toList, JsonVal.str sc)]
     | none => []) ++
    (match s.searchContext with
     | some rs => [("searchContext".toList,
        JsonVal.arr (rs.map searchResponseToJson))]
     | none => []))

/-- Encode a whole outline as JSON. -/
def outlineToJson (o : PodcastOutline) : JsonVal :=
  JsonVal.obj [("overview".toList, JsonVal.obj
      [("title".toList, JsonVal.str o.overview.title),
       ("description".toList, JsonVal.str o.overview.description),
       ("totalDuration".toList, JsonVal.str o.overview.totalDuration),
       ("targetAudience".toList, JsonVal.str o.overview.targetAudience),
       ("tone".toList, JsonVal.str o.overview.tone)]),
    ("sections".toList, JsonVal.arr (o.sections.map sectionToJson)),
    ("finalThoughts".toList, JsonVal.obj
      ([("title".toList, JsonVal.str o.finalThoughts.title),
        ("description".toList, JsonVal.str o.finalThoughts.description),
        ("duration".toList, JsonVal.str o.finalThoughts.duration),
        ("keyTakeaways".toList,
          JsonVal.arr (o.finalThoughts.keyTakeaways.map JsonVal.str))] ++
       (match o.finalThoughts.script with
        | some sc => [("script".toList, JsonVal.str sc)]
        | none => [])))]

/-- The message rendered for a `parseJSONFromResponse` failure (the
source embeds more detail; no claim inspects the text). -/
def parseErrMessage : ParseErr → List Char
  | ParseErr.tooShort =>
    "Response appears to be empty or too short to contain valid JSON".toList
  | ParseErr.validationFailed _ => "Content validation failed".toList
  | ParseErr.parseFailed => "JSON parsing failed".toList

/-- One pipeline run's external interactions: the outcome of the awaited
outline stage (whose internal retries emit no yielded events), the search
configuration and network oracle, the generated queries, and the outcomes
of the per-section, final-thoughts, structured-compilation and
fallback-compilation LLM calls.  Each `Except` error is the thrown
message. -/
structure RunEnv where
  outlineRes : Except (List Char) PodcastOutline
  tavilyKeySet : Bool
  net : List Char → Except SearchErr SearchResponse
  queries : List (List Char)
  sectionScriptRes : Nat → Except (List Char) (List Char)
  finalThoughtsScriptRes : Except (List Char) (List Char)
  structuredRes : Except (List Char) (List Char)
  fallbackRes : Except (List Char) (List Char)

/-- `Math.round(50 + (i / n) * 25)` over the rationals:
`50 + ⌊(50·i + n) / (2·n)⌋`. -/
def scriptProgress (i n : Nat) : Nat := 50 + (50 * i + n) / (2 * n)

/-- The script-stage section loop: one pre-yield per section, then the
awaited drafting call (its streaming callback feeds only the dead
`onProgress`), then one post-yield carrying the script.  A drafting
failure aborts the loop after its pre-yield. -/
def scriptLoopEvents (env : RunEnv) (n : Nat) :
    Nat → List PodcastSection →
    List GenProg × Except (List Char) (List PodcastSection)
  | _, [] => ([], Except.ok [])
  | i, s :: rest =>
    let pre : GenProg := { stage := Stage.script
                           progress := scriptProgress i n
                           currentSection := some s.title }
    match env.sectionScriptRes i with
    | Except.error e => ([pre], Except.error e)
    | Except.ok sc =>
      let post : GenProg := { stage := Stage.script
                              progress := scriptProgress (i + 1) n
                              currentSection := some s.title
                              result := some sc }
      let r := scriptLoopEvents env n (i + 1) rest
      (pre :: post :: r.1,
        r.2.map fun tl => { s with script := some sc } :: tl)

/-- The parse-and-finish tail of `createFinalScript` (after the 98%
yield): parse the compiled response, then yield the 99% event carrying
the re-serialized script. -/
def finishParse (evs : List GenProg) (pr : Except ParseErr JsonVal)
    (frLen : Nat) : List GenProg × Except (List Char) (List Char) :=
  match pr with
  | Except.ok parsed =>
    let txt := jsonStringifyF (frLen + 1) parsed
    (evs ++ [{ stage := Stage.finalizing
               progress := 99
               result := some txt }], Except.ok txt)
  | Except.error pe => (evs, Except.error (parseErrMessage pe))

/-- `createFinalScript`'s yielded events and outcome: 88/90/92, then the
structured call (96 on success) or the fallback (94 then 96, or a fatal
failure), then 98 and the parse/99 tail. -/
def createFinalScriptRun (env : RunEnv) :
    List GenProg × Except (List Char) (List Char) :=
  match env.structuredRes with
  | Except.ok fr =>
    finishParse [{ stage := Stage.finalizing, progress := 88 },
      { stage := Stage.finalizing, progress := 90 },
      { stage := Stage.finalizing, progress := 92 },
      { stage := Stage.finalizing, progress := 96 },
      { stage := Stage.finalizing, progress := 98 }]
      (parseJSONFromResponse fr true) fr.length
  | Except.error _ =>
    match env.fallbackRes with
    | Except.ok fr =>
      finishParse [{ stage := Stage.finalizing, progress := 88 },
        { stage := Stage.finalizing, progress := 90 },
        { stage := Stage.finalizing, progress := 92 },
        { stage := Stage.finalizing, progress := 94 },
        { stage := Stage.finalizing, progress := 96 },
        { stage := Stage.finalizing, progress := 98 }]
        (parseJSONFromResponse fr true) fr.length
    | Except.error e =>
      ([{ stage := Stage.finalizing, progress := 88 },
        { stage := Stage.finalizing, progress := 90 },
        { stage := Stage.finalizing, progress := 92 },
        { stage := Stage.finalizing, progress := 94 }], Except.error e)

/-- The error event yielded by `generatePodcastScript`'s catch before it
rethrows. -/
def pipelineErrEv (msg : List Char) : GenProg :=
  { stage := Stage.finalizing, progress := 100, error := some msg }

/-- The pipeline stages after the section loop, parameterized by the
already-computed outcomes of the loop, the final-thoughts call, and the
`createFinalScript` sub-run: 75% yield, 85/87 yields, the final-script
events, and the closing 100% yield (error paths append the catch's error
event instead). -/
def scriptAfterLoop (enriched : PodcastOutline) (loopEvs : List GenProg)
    (loopRes : Except (List Char) (List PodcastSection))
    (ftRes : Except (List Char) (List Char))
    (cevs : List GenProg) (cres : Except (List Char) (List Char)) :
    List GenProg × Except (List Char) PodcastOutline :=
  match loopRes with
  | Except.error e => (loopEvs ++ [pipelineErrEv e], Except.error e)
  | Except.ok secs =>
    let ev75 : GenProg := { stage := Stage.script, progress := 75 }
    match ftRes with
    | Except.error e =>
      (loopEvs ++ [ev75, pipelineErrEv e], Except.error e)
    | Except.ok ftScript =>
      let ev85 : GenProg := { stage := Stage.combining, progress := 85 }
      let ev87 : GenProg := { stage := Stage.finalizing, progress := 87 }
      let finalOutline : PodcastOutline := { enriched with
        sections := secs,
        finalThoughts := { enriched.finalThoughts with
          script := some ftScript } }
      match cres with
      | Except.error e =>
        (loopEvs ++ [ev75, ev85, ev87] ++ cevs ++ [pipelineErrEv e],
          Except.error e)
      | Except.ok finalScript =>
        (loopEvs ++ [ev75, ev85, ev87] ++ cevs
          ++ [{ stage := Stage.finalizing
                progress := 100
                result := some finalScript }], Except.ok finalOutline)

/-- `PodcastGenerator.generatePodcastScript`: the full yielded event
sequence and the run outcome.  `updateProgress` side-events are not
emitted anywhere — both request handlers construct `new
PodcastGenerator()` with no `onProgress` callback — so the yields are the
run's emitted `GenerationProgress` events. -/
def generatePodcastScript (env : RunEnv) :
    List GenProg × Except (List Char) PodcastOutline :=
  match env.outlineRes with
  | Except.error e => ([pipelineErrEv e], Except.error e)
  | Except.ok outline =>
    let ev25 : GenProg := { stage := Stage.outline
                            progress := 25
                            result := some (jsonStringifyF 32 (outlineToJson outline)) }
    let enriched := enrichWithWebSearch env.tavilyKeySet env.net outline
      env.queries
    let ev50 : GenProg := { stage := Stage.search, progress := 50 }
    let loop := scriptLoopEvents env enriched.sections.length 0
      enriched.sections
    scriptAfterLoop enriched ([ev25, ev50] ++ loop.1) loop.2
      env.finalThoughtsScriptRes (createFinalScriptRun env).1
      (createFinalScriptRun env).2

theorem scriptProgress_ge_50 (i n : Nat) : 50 ≤ scriptProgress i n :=
  Nat.le_add_right _ _

theorem scriptProgress_mono (n i j : Nat) (h : i ≤ j) :
    scriptProgress i n ≤ scriptProgress j n := by
  unfold scriptProgress
  have h3 : (50 * i + n) / (2 * n) ≤ (50 * j + n) / (2 * n) :=
    Nat.div_le_div_right (Nat.add_le_add_right (Nat.mul_le_mul_left 50 h) n)
  omega

theorem scriptProgress_le_75 (i n : Nat) (h : i ≤ n) :
    scriptProgress i n ≤ 75 := by
  unfold scriptProgress
  rcases Nat.eq_zero_or_pos n with hn | hn
  · subst hn
    have hi : i = 0 := by omega
    subst hi
    simp
  · have h1 : 50 * i ≤ 50 * n := Nat.mul_le_mul_left 50 h
    have h2 : (50 * i + n) / (2 * n) < 26 := by
      rw [Nat.div_lt_iff_lt_mul (by omega)]
      omega
    omega

/-- Events of the script loop are chained and bounded between the current
progress value and 75. -/
theorem scriptLoopEvents_spec (env : RunEnv) (n : Nat) :
    ∀ (rest : List PodcastSection) (i : Nat), i + rest.length ≤ n →
      (∀ ev ∈ (scriptLoopEvents env n i rest).1,
        scriptProgress i n ≤ ev.progress ∧ ev.progress ≤ 75) ∧
      List.Chain' (fun a b => a.progress ≤ b.progress)
        (scriptLoopEvents env n i rest).1 := by
  intro rest
  induction rest with
  | nil =>
    intro i _
    exact ⟨by intro ev hev; simp [scriptLoopEvents] at hev,
      by simp [scriptLoopEvents]⟩
  | cons s rest ih =>
    intro i h
    simp only [List.length_cons] at h
    unfold scriptLoopEvents
    cases hres : env.sectionScriptRes i with
    | error e =>
      dsimp only
      refine ⟨?_, by simp⟩
      intro ev hev
      simp only [List.mem_singleton] at hev
      subst hev
      exact ⟨Nat.le_refl _, scriptProgress_le_75 i n (by omega)⟩
    | ok sc =>
      dsimp only
      obtain ⟨ihb, ihc⟩ := ih (i + 1) (by omega)
      constructor
      · intro ev hev
        simp only [List.mem_cons] at hev
        rcases hev with rfl | rfl | hev
        · exact ⟨Nat.le_refl _, scriptProgress_le_75 i n (by omega)⟩
        · exact ⟨scriptProgress_mono n i (i + 1) (by omega),
            scriptProgress_le_75 (i + 1) n (by omega)⟩
        · exact ⟨Nat.le_trans (scriptProgress_mono n i (i + 1) (by omega))
            (ihb ev hev).1, (ihb ev hev).2⟩
      · rw [List.chain'_cons]
        refine ⟨scriptProgress_mono n i (i + 1) (by omega), ?_⟩
        rw [List.chain'_cons']
        refine ⟨?_, ihc⟩
        intro hd hhd
        exact (ihb hd (List.mem_of_mem_head? hhd)).1

/-- The parse tail keeps bounded, chained event runs bounded and chained:
either it appends nothing (parse failure) or a single 99% event. -/
theorem finishParse_spec (evs : List GenProg) (pr : Except ParseErr JsonVal)
    (n : Nat)
    (hb : ∀ ev ∈ evs, 88 ≤ ev.progress ∧ ev.progress ≤ 99)
    (hc : List.Chain' (fun a b => a.progress ≤ b.progress) evs)
    (hl : ∀ x ∈ evs.getLast?, x.progress ≤ 99) :
    (∀ ev ∈ (finishParse evs pr n).1,
      88 ≤ ev.progress ∧ ev.progress ≤ 99) ∧
    List.Chain' (fun a b => a.progress ≤ b.progress)
      (finishParse evs pr n).1 := by
  cases pr with
  | error pe => exact ⟨hb, hc⟩
  | ok parsed =>
    dsimp only [finishParse]
    constructor
    · intro ev hev
      rw [List.mem_append] at hev
      rcases hev with hev | hev
      · exact hb ev hev
      · rcases List.mem_singleton.mp hev with rfl
        exact ⟨(by decide : (88:Nat) ≤ 99), (by decide : (99:Nat) ≤ 99)⟩
    · rw [List.chain'_append]
      refine ⟨hc, List.chain'_singleton _, ?_⟩
      intro x hx y hy
      have h1 := hl x hx
      have h2 : y.progress = 99 := by
        simp only [List.head?_cons] at hy
        rcases Option.mem_some_iff.mp hy with rfl
        rfl
      omega

/-- Events of `createFinalScript` are chained and lie between 88 and 99. -/
theorem createFinalScriptRun_spec (env : RunEnv) :
    (∀ ev ∈ (createFinalScriptRun env).1,
      88 ≤ ev.progress ∧ ev.progress ≤ 99) ∧
    List.Chain' (fun a b => a.progress ≤ b.progress)
      (createFinalScriptRun env).1 := by
  unfold createFinalScriptRun
  cases env.structuredRes with
  | ok fr =>
    dsimp only
    refine finishParse_spec _ _ _ ?_ ?_ ?_
    · intro ev hev
      simp only [List.mem_cons, List.not_mem_nil, or_false] at hev
      rcases hev with rfl | rfl | rfl | rfl | rfl <;> exact ⟨by decide, by decide⟩
    · simp [List.chain'_cons]
    · intro x hx
      rcases Option.mem_some_iff.mp hx with rfl
      decide
  | error e1 =>
    cases env.fallbackRes with
    | ok fr =>
      dsimp only
      refine finishParse_spec _ _ _ ?_ ?_ ?_
      · intro ev hev
        simp only [List.mem_cons, List.not_mem_nil, or_false] at hev
        rcases hev with rfl | rfl | rfl | rfl | rfl | rfl <;>
          exact ⟨by decide, by decide⟩
      · simp [List.chain'_cons]
      · intro x hx
        rcases Option.mem_some_iff.mp hx with rfl
        decide
    | error e2 =>
      dsimp only
      constructor
      · intro ev hev
        simp only [List.mem_cons, List.not_mem_nil, or_false] at hev
        rcases hev with rfl | rfl | rfl | rfl <;> exact ⟨by decide, by decide⟩
      · simp [List.chain'_cons]

/-- Joining two chained event runs when a bound separates them. -/
theorem genChainAppend (l₁ l₂ : List GenProg) (B : Nat)
    (c₁ : List.Chain' (fun a b => a.progress ≤ b.progress) l₁)
    (c₂ : List.Chain' (fun a b => a.progress ≤ b.progress) l₂)
    (h₁ : ∀ x ∈ l₁, x.progress ≤ B)
    (h₂ : ∀ y ∈ l₂, B ≤ y.progress) :
    List.Chain' (fun a b => a.progress ≤ b.progress) (l₁ ++ l₂) := by
  rw [List.chain'_append]
  refine ⟨c₁, c₂, ?_⟩
  intro x hx y hy
  have hx' := h₁ x (mem_of_getLast?_eq l₁ x (by
    cases hgl : l₁.getLast? with
    | none => rw [hgl] at hx; simp at hx
    | some z =>
      rw [hgl] at hx
      have hxz : z = x := by simpa using hx
      rw [hxz]))
  have hy' := h₂ y (List.mem_of_mem_head? hy)
  omega

/-- Appending preserves a common upper bound on progress values. -/
theorem genAllLe (l₁ l₂ : List GenProg) (B : Nat)
    (h₁ : ∀ x ∈ l₁, x.progress ≤ B) (h₂ : ∀ x ∈ l₂, x.progress ≤ B) :
    ∀ x ∈ l₁ ++ l₂, x.progress ≤ B := by
  intro x hx
  rcases List.mem_append.mp hx with h | h
  exacts [h₁ x h, h₂ x h]

/-- The post-loop stages keep the run's events bounded by 100 and
chained, and a successful run ends on the 100% event. -/
theorem scriptAfterLoop_spec (enriched : PodcastOutline)
    (loopEvs : List GenProg)
    (loopRes : Except (List Char) (List PodcastSection))
    (ftRes : Except (List Char) (List Char))
    (cevs : List GenProg) (cres : Except (List Char) (List Char))
    (hb : ∀ ev ∈ loopEvs, ev.progress ≤ 75)
    (hc : List.Chain' (fun a b => a.progress ≤ b.progress) loopEvs)
    (hcb : ∀ ev ∈ cevs, 88 ≤ ev.progress ∧ ev.progress ≤ 99)
    (hcc : List.Chain' (fun a b => a.progress ≤ b.progress) cevs) :
    (∀ ev ∈ (scriptAfterLoop enriched loopEvs loopRes ftRes cevs cres).1,
      ev.progress ≤ 100) ∧
    List.Chain' (fun a b => a.progress ≤ b.progress)
      (scriptAfterLoop enriched loopEvs loopRes ftRes cevs cres).1 ∧
    ((scriptAfterLoop enriched loopEvs loopRes ftRes cevs cres).2.isOk = true →
      ((scriptAfterLoop enriched loopEvs loopRes ftRes cevs cres).1.getLast?).map
        GenProg.progress = some 100) := by
  cases loopRes with
  | error e =>
    dsimp only [scriptAfterLoop]
    refine ⟨?_, ?_, ?_⟩
    · refine genAllLe _ _ 100 (fun x hx => Nat.le_trans (hb x hx) (by decide)) ?_
      intro x hx
      rcases List.mem_singleton.mp hx with rfl
      exact Nat.le_refl 100
    · refine genChainAppend _ _ 75 hc (List.chain'_singleton _) hb ?_
      intro y hy
      rcases List.mem_singleton.mp hy with rfl
      exact (by decide : (75:Nat) ≤ 100)
    · intro h
      exact Bool.noConfusion h
  | ok secs =>
    cases ftRes with
    | error e =>
      dsimp only [scriptAfterLoop]
      refine ⟨?_, ?_, ?_⟩
      · refine genAllLe _ _ 100 (fun x hx => Nat.le_trans (hb x hx) (by decide)) ?_
        intro x hx
        rcases List.mem_cons.mp hx with rfl | hx
        · exact (by decide : (75:Nat) ≤ 100)
        · rcases List.mem_singleton.mp hx with rfl
          exact Nat.le_refl 100
      · refine genChainAppend _ _ 75 hc ?_ hb ?_
        · simp [List.chain'_cons, pipelineErrEv]
        · intro y hy
          rcases List.mem_cons.mp hy with rfl | hy
          · exact Nat.le_refl 75
          · rcases List.mem_singleton.mp hy with rfl
            exact (by decide : (75:Nat) ≤ 100)
      · intro h
        exact Bool.noConfusion h
    | ok ftScript =>
      have hmid : ∀ x ∈ loopEvs ++
          [({ stage := Stage.script, progress := 75 } : GenProg),
           { stage := Stage.combining, progress := 85 },
           { stage := Stage.finalizing, progress := 87 }], x.progress ≤ 87 := by
        refine genAllLe _ _ 87 (fun x hx => Nat.le_trans (hb x hx) (by decide)) ?_
        intro x hx
        rcases List.mem_cons.mp hx with rfl | hx
        · exact (by decide : (75:Nat) ≤ 87)
        · rcases List.mem_cons.mp hx with rfl | hx
          · exact (by decide : (85:Nat) ≤ 87)
          · rcases List.mem_singleton.mp hx with rfl
            exact Nat.le_refl 87
      have hmidc : List.Chain' (fun a b => a.progress ≤ b.progress)
          (loopEvs ++
            [({ stage := Stage.script, progress := 75 } : GenProg),
             { stage := Stage.combining, progress := 85 },
             { stage := Stage.finalizing, progress := 87 }]) := by
        refine genChainAppend _ _ 75 hc ?_ hb ?_
        · simp [List.chain'_cons]
        · intro y hy
          rcases List.mem_cons.mp hy with rfl | hy
          · exact Nat.le_refl 75
          · rcases List.mem_cons.mp hy with rfl | hy
            · exact (by decide : (75:Nat) ≤ 85)
            · rcases List.mem_singleton.mp hy with rfl
              exact (by decide : (75:Nat) ≤ 87)
      have hbig : ∀ x ∈ (loopEvs ++
          [({ stage := Stage.script, progress := 75 } : GenProg),
           { stage := Stage.combining, progress := 85 },
           { stage := Stage.finalizing, progress := 87 }]) ++ cevs,
          x.progress ≤ 99 :=
        genAllLe _ _ 99 (fun x hx => Nat.le_trans (hmid x hx) (by decide))
          (fun x hx => (hcb x hx).2)
      have hbigc : List.Chain' (fun a b => a.progress ≤ b.progress)
          ((loopEvs ++
            [({ stage := Stage.script, progress := 75 } : GenProg),
             { stage := Stage.combining, progress := 85 },
             { stage := Stage.finalizing, progress := 87 }]) ++ cevs) :=
        genChainAppend _ _ 87 hmidc hcc hmid
          (fun y hy => Nat.le_trans (by decide) (hcb y hy).1)
      cases cres with
      | error e =>
        dsimp only [scriptAfterLoop]
        refine ⟨?_, ?_, ?_⟩
        · refine genAllLe _ _ 100
            (fun x hx => Nat.le_trans (hbig x hx) (by decide)) ?_
          intro x hx
          rcases List.mem_singleton.mp hx with rfl
          exact Nat.le_refl 100
        · refine genChainAppend _ _ 99 hbigc (List.chain'_singleton _) hbig ?_
          intro y hy
          rcases List.mem_singleton.mp hy with rfl
          exact (by decide : (99:Nat) ≤ 100)
        · intro h
          exact Bool.noConfusion h
      | ok finalScript =>
        dsimp only [scriptAfterLoop]
        refine ⟨?_, ?_, ?_⟩
        · refine genAllLe _ _ 100
            (fun x hx => Nat.le_trans (hbig x hx) (by decide)) ?_
          intro x hx
          rcases List.mem_singleton.mp hx with rfl
          exact Nat.le_refl 100
        · refine genChainAppend _ _ 99 hbigc (List.chain'_singleton _) hbig ?_
          intro y hy
          rcases List.mem_singleton.mp hy with rfl
          exact (by decide : (99:Nat) ≤ 100)
        · intro _
          rw [List.getLast?_concat]
          rfl

/-- C3.  Within one run of `generatePodcastScript`, every emitted
`GenerationProgress` event carries a progress value that is a natural
number at most 100 (hence an integer in 0–100), consecutive emitted
progress values are monotonically non-decreasing, and on a successful
run the final emitted event has progress exactly 100. -/
theorem generatePodcastScript_progress (env : RunEnv) :
    (∀ ev ∈ (generatePodcastScript env).1, ev.progress ≤ 100) ∧
    List.Chain' (fun a b => a.progress ≤ b.progress)
      (generatePodcastScript env).1 ∧
    ((generatePodcastScript env).2.isOk = true →
      ((generatePodcastScript env).1.getLast?).map GenProg.progress
        = some 100) := by
  unfold generatePodcastScript
  cases env.outlineRes with
  | error e =>
    dsimp only
    refine ⟨?_, ?_, ?_⟩
    · intro ev hev
      rcases List.mem_singleton.mp hev with rfl
      exact Nat.le_refl 100
    · exact List.chain'_singleton _
    · intro h
      exact Bool.noConfusion h
  | ok outline =>
    dsimp only
    have hS := scriptLoopEvents_spec env
      (enrichWithWebSearch env.tavilyKeySet env.net outline
        env.queries).sections.length
      (enrichWithWebSearch env.tavilyKeySet env.net outline
        env.queries).sections 0 (by omega)
    have hC := createFinalScriptRun_spec env
    refine scriptAfterLoop_spec _ _ _ _ _ _ ?_ ?_ hC.1 hC.2
    · intro ev hev
      rcases List.mem_append.mp hev with h | h
      · rcases List.mem_cons.mp h with rfl | h
        · exact (by decide : (25:Nat) ≤ 75)
        · rcases List.mem_singleton.mp h with rfl
          exact (by decide : (50:Nat) ≤ 75)
      · exact (hS.1 ev h).2
    · refine genChainAppend _ _ 50 ?_ hS.2 ?_ ?_
      · simp [List.chain'_cons]
      · intro x hx
        rcases List.mem_cons.mp hx with rfl | hx
        · exact (by decide : (25:Nat) ≤ 50)
        · rcases List.mem_singleton.mp hx with rfl
          exact Nat.le_refl 50
      · intro y hy
        exact Nat.le_trans (scriptProgress_ge_50 0 _) (hS.1 y hy).1

/-- A run environment on which every pipeline stage succeeds: web search
is unconfigured (its failures are swallowed), each LLM drafting call
returns a script, and the structured compilation returns parseable
non-outline JSON. -/
def okEnv : RunEnv :=
  { outlineRes := Except.ok tinyOutline
    tavilyKeySet := false
    net := fun _ => Except.error SearchErr.notConfigured
    queries := []
    sectionScriptRes := fun _ => Except.ok "HOST A: Welcome to the show.".toList
    finalThoughtsScriptRes := Except.ok "HOST B: Thanks for listening.".toList
    structuredRes := Except.ok "\x7b\"podcast\": \x7b\"title\": \"Solar\"\x7d\x7d".toList
    fallbackRes := Except.ok "\x7b\x7d".toList }

/-- Witness for C3: on `okEnv` the run succeeds and its last emitted
event has progress 100. -/
theorem generatePodcastScript_progress_witness :
    (generatePodcastScript okEnv).2.isOk = true ∧
    ((generatePodcastScript okEnv).1.getLast?).map GenProg.progress
      = some 100 :=
  ⟨rfl, (generatePodcastScript_progress okEnv).2.2 rfl⟩

/-- The event kinds sent over the generate-podcast SSE channel
(`type: "progress" | "complete" | "done" | "error"`). -/
inductive RouteEvent where
  | progress (p : GenProg)
  | complete
  | done
  | errorEvent (msg : List Char)
deriving DecidableEq

/-- JS truthiness of `progress.result` (`undefined` and the empty string
are falsy). -/
def resultTruthy (p : GenProg) : Bool :=
  match p.result with
  | some s => !s.isEmpty
  | none => false

/-- The channel events sent for one generator yield: the progress event,
followed by a `complete` event when `progress.progress === 100 &&
progress.result`. -/
def progressEvents (p : GenProg) : List RouteEvent :=
  RouteEvent.progress p ::
    (if (p.progress == 100) && resultTruthy p then [RouteEvent.complete]
     else [])

/-- The generate-podcast POST handler's event channel for one
non-cancelled run whose sends succeed: the initial progress-0 event, the
per-yield events, then — the `for await` having consumed every yield —
either the `done` event (the generator returned) or the catch's single
`error` event (it threw), after which the controller is closed. -/
def runHandler (gevs : List GenProg)
    (gres : Except (List Char) PodcastOutline) : List RouteEvent :=
  RouteEvent.progress { stage := Stage.outline, progress := 0 } ::
    ((gevs.map progressEvents).flatten ++
      match gres with
      | Except.ok _ => [RouteEvent.done]
      | Except.error e => [RouteEvent.errorEvent e])

/-- The POST handler applied to the generator run it consumes. -/
def routeRun (env : RunEnv) : List RouteEvent :=
  runHandler (generatePodcastScript env).1 (generatePodcastScript env).2

/-- Per-yield events are only `progress` or `complete` events. -/
theorem progressEvents_flatten_shape (gevs : List GenProg) :
    ∀ x ∈ (gevs.map progressEvents).flatten,
      x ≠ RouteEvent.done ∧ ∀ m, x ≠ RouteEvent.errorEvent m := by
  intro x hx
  rcases List.mem_flatten.mp hx with ⟨y, hy, hxy⟩
  rcases List.mem_map.mp hy with ⟨p, _, rfl⟩
  rcases List.mem_cons.mp hxy with rfl | hx2
  · exact ⟨fun h => RouteEvent.noConfusion h,
      fun m h => RouteEvent.noConfusion h⟩
  · by_cases hcond : ((p.progress == 100) && resultTruthy p) = true
    · rw [if_pos hcond] at hx2
      rcases List.mem_singleton.mp hx2 with rfl
      exact ⟨fun h => RouteEvent.noConfusion h,
        fun m h => RouteEvent.noConfusion h⟩
    · rw [if_neg hcond] at hx2
      cases hx2

/-- The runHandler channel's done/error discipline over any generator
outcome. -/
theorem runHandler_spec (gevs : List GenProg)
    (gres : Except (List Char) PodcastOutline) :
    (gres.isOk = true →
      (runHandler gevs gres).getLast? = some RouteEvent.done ∧
      (runHandler gevs gres).count RouteEvent.done = 1) ∧
    (∀ msg, RouteEvent.errorEvent msg ∈ runHandler gevs gres →
      RouteEvent.done ∉ runHandler gevs gres) := by
  have hflat := progressEvents_flatten_shape gevs
  cases gres with
  | ok outline =>
    dsimp only [runHandler]
    refine ⟨fun _ => ⟨?_, ?_⟩, ?_⟩
    · rw [← List.cons_append, List.getLast?_concat]
    · rw [← List.cons_append, List.count_append]
      have h0 : (RouteEvent.progress
            { stage := Stage.outline, progress := 0 } ::
          (gevs.map progressEvents).flatten).count RouteEvent.done = 0 := by
        rw [List.count_eq_zero]
        intro hmem
        rcases List.mem_cons.mp hmem with h | h
        · exact RouteEvent.noConfusion h
        · exact (hflat _ h).1 rfl
      rw [h0]
      decide
    · intro msg hmem
      exfalso
      rcases List.mem_cons.mp hmem with h | h
      · exact RouteEvent.noConfusion h
      · rcases List.mem_append.mp h with h | h
        · exact (hflat _ h).2 msg rfl
        · rcases List.mem_singleton.mp h with h
          exact RouteEvent.noConfusion h
  | error e =>
    dsimp only [runHandler]
    refine ⟨fun h => Bool.noConfusion h, ?_⟩
    intro msg _ hdone
    rcases List.mem_cons.mp hdone with h | h
    · exact RouteEvent.noConfusion h
    · rcases List.mem_append.mp h with h | h
      · exact (hflat _ h).1 rfl
      · rcases List.mem_singleton.mp h with h
        exact RouteEvent.noConfusion h

/-- C9.  On the generate-podcast handler's event channel, a successful
run's sequence is terminated by exactly one `done` event (it is the last
event and occurs once), and whenever an `error` event is on the channel
no `done` event is on it at all — in particular no `done` ever follows
an `error` event. -/
theorem routeRun_done_discipline (env : RunEnv) :
    ((generatePodcastScript env).2.isOk = true →
      (routeRun env).getLast? = some RouteEvent.done ∧
      (routeRun env).count RouteEvent.done = 1) ∧
    (∀ msg, RouteEvent.errorEvent msg ∈ routeRun env →
      RouteEvent.done ∉ routeRun env) :=
  runHandler_spec (generatePodcastScript env).1 (generatePodcastScript env).2

/-- Witness for C9: on `okEnv` the run succeeds, and the channel ends
with its single `done` event. -/
theorem routeRun_done_discipline_witness :
    (routeRun okEnv).getLast? = some RouteEvent.done ∧
    (routeRun okEnv).count RouteEvent.done = 1 :=
  (routeRun_done_discipline okEnv).1 rfl
